import Mathlib

/-!
Verification of the real-time collaboration server
(`src/backend/collaboration_server.py`).

The development shallowly embeds the `CollaborationManager` data model and
its operations (`create_room`, `join_room`, `leave_room`, `add_message`),
the socket.io event handlers built on top of them (`join_user`,
`create_room`, `join_room`, `leave_room`, `send_message`, `disconnect`,
`webrtc_offer`, `webrtc_answer`, `webrtc_ice_candidate`) and the
room-listing REST endpoint (`get_rooms`).

Modelling conventions:
* Python dicts are insertion-ordered association lists (`lookupA`,
  `insertA`, `eraseA` reproduce `d[k]`, `d[k] = v`, `del d[k]` and the
  iteration order of `.items()` / `.values()`; keys are unique, as in a
  Python dict, which every reachable state maintains).
* Mutable `User` objects are aliased between `manager.users` and every
  room's `participants` list; we model the Python object store with an
  explicit heap (`Manager.heap : List User`), references being indices,
  so in-place mutation (`user.room_id = ...`, `participants[0].role = ...`)
  is visible through every alias, exactly as in CPython.
* `uuid.uuid4()` and `datetime.now().isoformat()` produce fresh,
  strictly increasing values; both are modelled by a single monotone
  counter `Manager.tick` (room ids render the counter in hexadecimal,
  mirroring `room_<hex>`; message ids and timestamps are the raw counter).
* A `KeyError` escaping a `CollaborationManager` method (possible only
  from `self.room_messages[room_id]` accesses on a key that is absent) is
  modelled by the `PyResult.raised` constructor, paired with the state at
  the moment the exception is raised, since the mutations already
  performed persist.
-/

namespace Collab

/-- Association-list lookup, modelling Python `d.get(k)` / `d[k]`:
returns the value of the first (in insertion order) matching key. -/
def lookupA {α : Type} : List (String × α) → String → Option α
  | [], _ => none
  | p :: t, k => if p.1 = k then some p.2 else lookupA t k

/-- Association-list insertion, modelling Python `d[k] = v`: if the key is
present its entry is updated in place (keeping its position), otherwise
the pair is appended at the end (Python dicts preserve insertion order). -/
def insertA {α : Type} : List (String × α) → String → α → List (String × α)
  | [], k, v => [(k, v)]
  | p :: t, k, v => if p.1 = k then (k, v) :: t else p :: insertA t k v

/-- Association-list deletion, modelling Python `del d[k]` (keys are
unique in a Python dict, so removing the first occurrence is exact). -/
def eraseA {α : Type} : List (String × α) → String → List (String × α)
  | [], _ => []
  | p :: t, k => if p.1 = k then t else p :: eraseA t k

/-- The keys of an association list, in order. -/
def keysA {α : Type} (l : List (String × α)) : List String :=
  l.map Prod.fst

/-- One hexadecimal digit, as produced by `uuid.uuid4().hex`. -/
def hexChar : Nat → Char
  | 0 => '0' | 1 => '1' | 2 => '2' | 3 => '3'
  | 4 => '4' | 5 => '5' | 6 => '6' | 7 => '7'
  | 8 => '8' | 9 => '9' | 10 => 'a' | 11 => 'b'
  | 12 => 'c' | 13 => 'd' | 14 => 'e' | 15 => 'f'
  | _ => 'x'

/-- Big-endian hexadecimal digits of `n`, with an explicit structural fuel
so that the definition reduces inside the kernel (`fuel ≥ n` suffices). -/
def toHexAux : Nat → Nat → List Char
  | _, 0 => []
  | 0, _ => []
  | fuel + 1, n + 1 => toHexAux fuel ((n + 1) / 16) ++ [hexChar ((n + 1) % 16)]

/-- The fresh room identifier `f"room_{uuid.uuid4().hex[:8]}"`: the uuid is
modelled by the manager's monotone counter, rendered in hexadecimal. -/
def renderRoomId (t : Nat) : String :=
  String.mk ('r' :: 'o' :: 'o' :: 'm' :: '_' :: toHexAux t t)

/-- The `User` dataclass: one registered participant identity.  Field order
and defaults follow the source (`joined_at` defaults to the empty
timestamp, modelled as tick 0; `role` defaults to `"participant"`). -/
structure User where
  id : String
  name : String
  email : String
  socket_id : String
  room_id : Option String
  is_video_enabled : Bool
  is_audio_enabled : Bool
  joined_at : Nat
  role : String
deriving DecidableEq, Repr

/-- The placeholder returned when a dangling heap reference is read; in
reachable states every stored reference is live, so this is never hit. -/
def defaultUser : User :=
  ⟨"", "", "", "", none, true, true, 0, "participant"⟩

/-- The `Room` dataclass.  `participants` holds references (heap indices)
to the aliased mutable `User` objects, mirroring the Python object graph;
`max_participants` is a client-supplied Python `int`, hence `Int`. -/
structure Room where
  id : String
  name : String
  description : String
  host_id : String
  participants : List Nat
  created_at : Nat
  max_participants : Int
  settings : List (String × Bool)
  is_recording : Bool
deriving DecidableEq, Repr

/-- The `ChatMessage` dataclass; `id` is the uuid (modelled by the fresh
counter) and `timestamp` the `datetime.now()` instant. -/
structure ChatMessage where
  id : Nat
  room_id : String
  user_id : String
  user_name : String
  message : String
  timestamp : Nat
  type : String
deriving DecidableEq, Repr

/-- The `room_data` dict accepted by `create_room`; absent keys are `none`
(`room_data.get(..., default)` picks the default). -/
structure RoomData where
  name : Option String
  description : Option String
  max_participants : Option Int
  settings : Option (List (String × Bool))
deriving DecidableEq, Repr

/-- The settings default used by `create_room`. -/
def defaultSettings : List (String × Bool) :=
  [("allow_screen_share", true), ("allow_chat", true),
   ("require_approval", false), ("is_locked", false)]

/-- Result of a `CollaborationManager` method: a normal return, or an
uncaught `KeyError` (`raised`), paired with the state reached so far. -/
inductive PyResult (α : Type) where
  | ok (a : α)
  | raised
deriving DecidableEq, Repr

/-- The `CollaborationManager` state together with the heap of `User`
objects and the freshness counter for uuids/timestamps. -/
structure Manager where
  heap : List User
  rooms : List (String × Room)
  users : List (String × Nat)
  user_rooms : List (String × String)
  room_messages : List (String × List ChatMessage)
  tick : Nat
deriving DecidableEq, Repr

/-- Dereference a `User` object (a Python attribute read through any
alias). -/
def Manager.getU (m : Manager) (r : Nat) : User :=
  m.heap.getD r defaultUser

/-- Overwrite a `User` object in place (a Python attribute write, visible
through every alias). -/
def Manager.setU (m : Manager) (r : Nat) (u : User) : Manager :=
  {m with heap := m.heap.set r u}

/-- The empty manager, as built by `CollaborationManager.__init__`. -/
def initM : Manager := ⟨[], [], [], [], [], 0⟩

/-- Line 167: `next((u.name for u in self.users.values() if u.id == user_id), "사용자")`. -/
def userNameScan (m : Manager) (user_id : String) : String :=
  match m.users.find? (fun p => (m.getU p.2).id == user_id) with
  | some p => (m.getU p.2).name
  | none => "사용자"

/-- Line 187: `next((sid for sid, u in self.users.items() if u.id == user_id), "")`. -/
def findSidByUser (m : Manager) (user_id : String) : String :=
  match m.users.find? (fun p => (m.getU p.2).id == user_id) with
  | some p => p.1
  | none => ""

/-- Lines 203–204: keep only the most recent 500 messages (`lst[-500:]`)
once the log exceeds 500 entries. -/
def truncate500 (l : List ChatMessage) : List ChatMessage :=
  if l.length > 500 then l.drop (l.length - 500) else l

/-! ## `CollaborationManager` operations (lines 70–206) -/

/-- Method `create_room(room_data, host_user)`: generates a fresh id, builds the
room with the requester as sole participant, marks the requester as host,
registers the room, the user→room entry and an empty message log. -/
def Manager.create_room (m : Manager) (room_data : RoomData) (href : Nat) :
    Manager × Room :=
  let room_id := renderRoomId m.tick
  let m1 : Manager := {m with tick := m.tick + 1}
  let room : Room :=
    ⟨room_id,
     room_data.name.getD ("Room " ++ room_id),
     room_data.description.getD "",
     (m1.getU href).id,
     [href],
     m1.tick,
     room_data.max_participants.getD 10,
     room_data.settings.getD defaultSettings,
     false⟩
  let m2 : Manager := {m1 with tick := m1.tick + 1}
  let m3 := m2.setU href {m2.getU href with role := "host"}
  let m4 := m3.setU href {m3.getU href with room_id := some room_id}
  ({m4 with rooms := insertA m4.rooms room_id room,
            user_rooms := insertA m4.user_rooms (m4.getU href).id room_id,
            room_messages := insertA m4.room_messages room_id []},
   room)

/-- Method `join_room(room_id, user)`: guards (room exists, room not full, user
not already a member) are checked in order before any mutation; on success
the user record is updated, the user is appended to the participants, the
user→room entry is set and a system join message is appended. -/
def Manager.join_room (m : Manager) (room_id : String) (uref : Nat) :
    Manager × PyResult Bool :=
  match lookupA m.rooms room_id with
  | none => (m, .ok false)
  | some room =>
    if (room.participants.length : Int) ≥ room.max_participants then
      (m, .ok false)
    else if (m.getU uref).id ∈ room.participants.map (fun r => (m.getU r).id) then
      (m, .ok false)
    else
      let m1 := m.setU uref {m.getU uref with room_id := some room_id}
      let m2 := m1.setU uref {m1.getU uref with joined_at := m1.tick}
      let m3 : Manager := {m2 with tick := m2.tick + 1}
      let u := m3.getU uref
      let m4 : Manager :=
        {m3 with rooms := insertA m3.rooms room_id
                   {room with participants := room.participants ++ [uref]},
                 user_rooms := insertA m3.user_rooms u.id room_id}
      let sysmsg : ChatMessage :=
        ⟨m4.tick, room_id, "system", "시스템",
         u.name ++ "님이 참여했습니다.", m4.tick + 1, "system"⟩
      let m5 : Manager := {m4 with tick := m4.tick + 2}
      match lookupA m5.room_messages room_id with
      | none => (m5, .raised)
      | some msgs =>
        ({m5 with room_messages := insertA m5.room_messages room_id (msgs ++ [sysmsg])},
         .ok true)

/-- Method `leave_room(user_id)`: no-op when the user is in no tracked room;
otherwise removes the user from the room's participant list and the
user→room map, applies the host-failover policy (promote the first
remaining participant, or delete the room and its log when none remain),
and appends a system departure message when the room survives. -/
def Manager.leave_room (m : Manager) (user_id : String) :
    Manager × PyResult (Option String) :=
  match lookupA m.user_rooms user_id with
  | none => (m, .ok none)
  | some room_id =>
    match lookupA m.rooms room_id with
    | none => (m, .ok none)
    | some room =>
      let parts := room.participants.filter (fun r => !((m.getU r).id == user_id))
      let m1 : Manager :=
        {m with rooms := insertA m.rooms room_id {room with participants := parts},
                user_rooms := eraseA m.user_rooms user_id}
      let msgBlock : Manager → Manager × PyResult (Option String) := fun mm =>
        let user_name := userNameScan mm user_id
        let sysmsg : ChatMessage :=
          ⟨mm.tick, room_id, "system", "시스템",
           user_name ++ "님이 나가셨습니다.", mm.tick + 1, "system"⟩
        let mm2 : Manager := {mm with tick := mm.tick + 2}
        match lookupA mm2.room_messages room_id with
        | none => (mm2, .raised)
        | some msgs =>
          ({mm2 with room_messages := insertA mm2.room_messages room_id (msgs ++ [sysmsg])},
           .ok (some room_id))
      if room.host_id = user_id then
        match parts with
        | p0 :: _ =>
          let m2 := m1.setU p0 {m1.getU p0 with role := "host"}
          let m3 : Manager :=
            {m2 with rooms := insertA m2.rooms room_id
                       {room with participants := parts, host_id := (m2.getU p0).id}}
          msgBlock m3
        | [] =>
          let m2 : Manager := {m1 with rooms := eraseA m1.rooms room_id}
          match lookupA m2.room_messages room_id with
          | none => (m2, .raised)
          | some _ =>
            ({m2 with room_messages := eraseA m2.room_messages room_id},
             .ok (some room_id))
      else
        msgBlock m1

/-- Method `add_message(room_id, user_id, message_text)`: silently returns `None`
when the room is absent or no registered user carries `user_id`; otherwise
appends one message and truncates the log to the most recent 500. -/
def Manager.add_message (m : Manager) (room_id user_id message_text : String) :
    Manager × PyResult (Option ChatMessage) :=
  match lookupA m.rooms room_id with
  | none => (m, .ok none)
  | some _ =>
    let sidForUser := findSidByUser m user_id
    match lookupA m.users sidForUser with
    | none => (m, .ok none)
    | some uref =>
      let msg : ChatMessage :=
        ⟨m.tick, room_id, user_id, (m.getU uref).name, message_text, m.tick + 1, "text"⟩
      let m1 : Manager := {m with tick := m.tick + 2}
      match lookupA m1.room_messages room_id with
      | none => (m1, .raised)
      | some msgs =>
        ({m1 with room_messages := insertA m1.room_messages room_id (truncate500 (msgs ++ [msg]))},
         .ok (some msg))

/-! ## Transport events (socket.io handlers, lines 212–545) -/

/-- The JSON payload of an outbound event, one constructor per payload
shape appearing in the source. -/
inductive Payload where
  | statusSuccess
  | errorMsg (msg : String)
  | roomCreated (room : Room)
  | roomJoined (room : Room)
  | participantJoined (user : User) (room_id : String)
  | participantLeft (user_id user_name : String) (room_id : Option String)
  | participantsUpdated (participants : List User)
  | chatHistory (messages : List ChatMessage)
  | newMessage (msg : ChatMessage)
  | signal (from_user_id : String) (blob : String)
deriving DecidableEq, Repr

/-- An outbound `sio.emit(event, payload, room=target, skip_sid=skip)`
call. -/
structure Emit where
  event : String
  target : String
  skip : Option String
  payload : Payload
deriving DecidableEq, Repr

/-- Python `lst[-n:]`: the most recent `n` elements. -/
def lastN {α : Type} (n : Nat) (l : List α) : List α :=
  l.drop (l.length - n)

/-- The `join_user` handler: registers a fresh `User` object under the
connection's socket id (re-registration of the same socket id replaces
the mapping; the old object stays alive through any room that lists it). -/
def joinUserH (m : Manager) (sid uid name email : String) : Manager × List Emit :=
  let u : User := ⟨uid, name, email, sid, none, true, true, m.tick, "participant"⟩
  ({m with heap := m.heap ++ [u],
           users := insertA m.users sid m.heap.length,
           tick := m.tick + 1},
   [⟨"user_registered", sid, none, .statusSuccess⟩])

/-- The `create_room` handler. -/
def createH (m : Manager) (sid : String) (data : RoomData) : Manager × List Emit :=
  match lookupA m.users sid with
  | none => (m, [⟨"error", sid, none, .errorMsg "User not registered"⟩])
  | some uref =>
    let res := m.create_room data uref
    (res.1, [⟨"room_created", sid, none, .roomCreated res.2⟩])

/-- The `join_room` handler (an exception inside the manager is caught by
the handler's `except` clause and surfaced as the generic error event). -/
def joinH (m : Manager) (sid rid : String) : Manager × List Emit :=
  match lookupA m.users sid with
  | none => (m, [⟨"error", sid, none, .errorMsg "User not registered"⟩])
  | some uref =>
    let res := m.join_room rid uref
    match res.2 with
    | .ok true =>
      let m1 := res.1
      match lookupA m1.rooms rid with
      | some room =>
        (m1, [⟨"room_joined", sid, none, .roomJoined room⟩,
              ⟨"participant_joined", rid, some sid, .participantJoined (m1.getU uref) rid⟩,
              ⟨"participants_updated", rid, none,
                .participantsUpdated (room.participants.map (fun r => m1.getU r))⟩,
              ⟨"chat_history", sid, none,
                .chatHistory (lastN 50 ((lookupA m1.room_messages rid).getD []))⟩])
      | none => (m1, [⟨"error", sid, none, .errorMsg "Failed to join room"⟩])
    | .ok false => (res.1, [⟨"error", sid, none, .errorMsg "Failed to join room"⟩])
    | .raised => (res.1, [⟨"error", sid, none, .errorMsg "Failed to join room"⟩])

/-- The `disconnect` handler: removes the session entry after running
`leave_room` and broadcasting the departure; a no-op when the socket id
has no session entry. -/
def disconnectH (m : Manager) (sid : String) : Manager × List Emit :=
  match lookupA m.users sid with
  | none => (m, [])
  | some uref =>
    let u := m.getU uref
    let res := m.leave_room u.id
    match res.2 with
    | .raised => (res.1, [])
    | .ok room_idOpt =>
      let m1 := res.1
      let emits :=
        match room_idOpt with
        | some rid =>
          match lookupA m1.rooms rid with
          | some room =>
            [⟨"participant_left", rid, none, .participantLeft u.id u.name (some rid)⟩,
             ⟨"participants_updated", rid, none,
               .participantsUpdated (room.participants.map (fun r => m1.getU r))⟩]
          | none => []
        | none => []
      ({m1 with users := eraseA m1.users sid}, emits)

/-- The `webrtc_offer` handler: point-to-point relay to the first live
connection registered with the target user id; silently drops the event
when the sender is unregistered or no such connection exists. -/
def webrtcOfferH (m : Manager) (sid target_user_id offer : String) :
    Manager × List Emit :=
  match lookupA m.users sid with
  | none => (m, [])
  | some uref =>
    match m.users.find? (fun p => (m.getU p.2).id == target_user_id) with
    | none => (m, [])
    | some p =>
      (m, [⟨"webrtc_offer", p.1, none, .signal (m.getU uref).id offer⟩])

/-- The `webrtc_answer` handler (same routing primitive). -/
def webrtcAnswerH (m : Manager) (sid target_user_id answer : String) :
    Manager × List Emit :=
  match lookupA m.users sid with
  | none => (m, [])
  | some uref =>
    match m.users.find? (fun p => (m.getU p.2).id == target_user_id) with
    | none => (m, [])
    | some p =>
      (m, [⟨"webrtc_answer", p.1, none, .signal (m.getU uref).id answer⟩])

/-- The `webrtc_ice_candidate` handler (same routing primitive). -/
def webrtcIceH (m : Manager) (sid target_user_id candidate : String) :
    Manager × List Emit :=
  match lookupA m.users sid with
  | none => (m, [])
  | some uref =>
    match m.users.find? (fun p => (m.getU p.2).id == target_user_id) with
    | none => (m, [])
    | some p =>
      (m, [⟨"webrtc_ice_candidate", p.1, none, .signal (m.getU uref).id candidate⟩])

/-- The operations that mutate the manager: transport registration, the
room-handler events, the raw manager operations `leave_room` /
`add_message` (as the claims quantify over them directly), and the
transport-level disconnect. -/
inductive Op where
  | register (sid uid name email : String)
  | create (sid : String) (data : RoomData)
  | join (sid rid : String)
  | leave (uid : String)
  | addMsg (rid uid text : String)
  | disconnect (sid : String)
deriving DecidableEq, Repr

/-- Apply one operation, returning the new state and the emitted events. -/
def applyOp (m : Manager) (op : Op) : Manager × List Emit :=
  match op with
  | .register sid uid name email => joinUserH m sid uid name email
  | .create sid data => createH m sid data
  | .join sid rid => joinH m sid rid
  | .leave uid => ((m.leave_room uid).1, [])
  | .addMsg rid uid text => ((m.add_message rid uid text).1, [])
  | .disconnect sid => disconnectH m sid

/-- The state transition of one operation. -/
def step (m : Manager) (op : Op) : Manager :=
  (applyOp m op).1

/-- Run a sequence of operations from the freshly constructed manager. -/
def runOps (ops : List Op) : Manager :=
  ops.foldl step initM

/-- One row of the `GET /api/collaboration/rooms` response. -/
structure RoomListing where
  id : String
  name : String
  description : String
  participant_count : Nat
  max_participants : Int
  host_name : String
  created_at : Nat
  settings : List (String × Bool)
deriving DecidableEq, Repr

/-- The `get_rooms` REST endpoint: one listing per active room, the host
display name taken from `participants[0].name` (empty for an empty
participant list). -/
def getRooms (m : Manager) : List RoomListing :=
  m.rooms.map (fun p =>
    ⟨p.2.id, p.2.name, p.2.description, p.2.participants.length,
     p.2.max_participants,
     (match p.2.participants with
      | [] => ""
      | r :: _ => (m.getU r).name),
     p.2.created_at, p.2.settings⟩)

/-! ## Heap access lemmas -/

/-- The operation sequence for the C4 counterexample: a two-member room,
then `k` leave/re-join cycles of the non-host member, each appending two
unbounded system messages. -/
def c4Ops : Nat → List Op
  | 0 => [.register "s1" "h" "H" "", .register "s2" "u" "U" "",
          .create "s1" ⟨none, none, none, none⟩, .join "s2" "room_2"]
  | k + 1 => c4Ops k ++ [.leave "u", .join "s2" "room_2"]

/-- The state shape reached after the C4 prefix and any number of
leave/re-join cycles: fixed registry and room, a log of length `n`. -/
def C4Shape (m : Manager) (n : Nat) : Prop :=
  ∃ ju tk : Nat, ∃ msgs : List ChatMessage, msgs.length = n ∧
    m = ⟨[⟨"h", "H", "", "s1", some "room_2", true, true, 0, "host"⟩,
          ⟨"u", "U", "", "s2", some "room_2", true, true, ju, "participant"⟩],
         [("room_2", ⟨"room_2", "Room room_2", "", "h", [0, 1], 3, 10, defaultSettings, false⟩)],
         [("s1", 0), ("s2", 1)],
         [("h", "room_2"), ("u", "room_2")],
         [("room_2", msgs)], tk⟩

/-- The invariant maintained by every operation: dict keys are unique,
session-registry references are live, every tracked room is non-empty
with distinct member ids, is led (first position) by the host, owns a
message log and a counter-fresh id, message logs belong to live rooms,
and the user→room map points to rooms that really list the user. -/
structure Inv (m : Manager) : Prop where
  rooms_nd : (keysA m.rooms).Nodup
  users_nd : (keysA m.users).Nodup
  user_rooms_nd : (keysA m.user_rooms).Nodup
  msgs_nd : (keysA m.room_messages).Nodup
  users_ok : ∀ p ∈ m.users, p.2 < m.heap.length
  rooms_ok : ∀ p ∈ m.rooms,
    p.2.participants ≠ [] ∧
    (∀ r ∈ p.2.participants, r < m.heap.length) ∧
    (p.2.participants.map (fun r => (m.getU r).id)).Nodup ∧
    (m.getU (p.2.participants.headD 0)).id = p.2.host_id ∧
    (m.getU (p.2.participants.headD 0)).role = "host" ∧
    (lookupA m.room_messages p.1).isSome = true ∧
    (∃ t, t < m.tick ∧ p.1 = renderRoomId t)
  msgs_ok : ∀ p ∈ m.room_messages, (lookupA m.rooms p.1).isSome = true
  ur_ok : ∀ p ∈ m.user_rooms, ∃ room, lookupA m.rooms p.2 = some room ∧
    p.1 ∈ room.participants.map (fun r => (m.getU r).id)

/-- A create request is capacity-sane when the (client-supplied, not
validated by the code) `max_participants` is at least one. -/
def capOkOp : Op → Bool
  | .create _ data => decide ((1 : Int) ≤ data.max_participants.getD 10)
  | _ => true

/-- The capacity bound over all tracked rooms. -/
def CapInv (m : Manager) : Prop :=
  ∀ p ∈ m.rooms, (p.2.participants.length : Int) ≤ p.2.max_participants

theorem lookupA_insertA_self {α : Type} (l : List (String × α)) (k : String) (v : α) :
    lookupA (insertA l k v) k = some v := by
  induction l with
  | nil => simp [insertA, lookupA]
  | cons p t ih =>
    by_cases hp : p.1 = k <;> simp [insertA, lookupA, hp, ih]

theorem lookupA_insertA_ne {α : Type} (l : List (String × α)) (k k' : String) (v : α)
    (h : k' ≠ k) : lookupA (insertA l k v) k' = lookupA l k' := by
  induction l with
  | nil => simp [insertA, lookupA, Ne.symm h]
  | cons p t ih =>
    by_cases hp : p.1 = k
    · rw [insertA]
      simp only [hp, if_true]
      have h1 : ¬ k = k' := Ne.symm h
      have h2 : ¬ p.1 = k' := by rw [hp]; exact h1
      rw [lookupA, lookupA]
      simp [h1, h2]
    · rw [insertA]
      simp only [hp, if_false]
      rw [lookupA, lookupA]
      by_cases hq : p.1 = k' <;> simp [hq, ih]

theorem lookupA_eq_none_iff {α : Type} (l : List (String × α)) (k : String) :
    lookupA l k = none ↔ ∀ p ∈ l, p.1 ≠ k := by
  induction l with
  | nil => simp [lookupA]
  | cons p t ih =>
    by_cases hp : p.1 = k <;> simp [lookupA, hp, ih]

theorem lookupA_eraseA_self {α : Type} {l : List (String × α)} {k : String}
    (h : (keysA l).Nodup) : lookupA (eraseA l k) k = none := by
  induction l with
  | nil => simp [eraseA, lookupA]
  | cons p t ih =>
    simp only [keysA, List.map_cons, List.nodup_cons] at h
    by_cases hp : p.1 = k
    · simp only [eraseA, hp, if_true]
      rw [lookupA_eq_none_iff]
      intro q hq hqk
      apply h.1
      rw [hp, ← hqk]
      exact List.mem_map.2 ⟨q, hq, rfl⟩
    · rw [eraseA]
      simp only [hp, if_false]
      rw [lookupA]
      simp only [hp, if_false]
      exact ih h.2

theorem lookupA_eraseA_ne {α : Type} (l : List (String × α)) (k k' : String)
    (h : k' ≠ k) : lookupA (eraseA l k) k' = lookupA l k' := by
  induction l with
  | nil => simp [eraseA]
  | cons p t ih =>
    by_cases hp : p.1 = k
    · have h2 : ¬ p.1 = k' := by rw [hp]; exact Ne.symm h
      rw [eraseA]
      simp only [hp, if_true]
      rw [lookupA]
      simp [h2]
    · rw [eraseA]
      simp only [hp, if_false]
      rw [lookupA, lookupA]
      by_cases hq : p.1 = k' <;> simp [hq, ih]

theorem mem_insertA {α : Type} {l : List (String × α)} {k : String} {v : α}
    {p : String × α} (hnd : (keysA l).Nodup) (h : p ∈ insertA l k v) :
    p = (k, v) ∨ (p ∈ l ∧ p.1 ≠ k) := by
  induction l with
  | nil => simp [insertA] at h; left; simp [h]
  | cons q t ih =>
    simp only [keysA, List.map_cons, List.nodup_cons] at hnd
    by_cases hq : q.1 = k
    · simp only [insertA, hq, if_true, List.mem_cons] at h
      rcases h with h | h
      · left; exact h
      · right
        refine ⟨List.mem_cons_of_mem _ h, ?_⟩
        intro hpk
        apply hnd.1
        rw [hq, ← hpk]
        exact List.mem_map.2 ⟨p, h, rfl⟩
    · simp only [insertA, hq, if_false, List.mem_cons] at h
      rcases h with h | h
      · right; exact ⟨h ▸ List.mem_cons_self _ _, h ▸ hq⟩
      · rcases ih hnd.2 h with h' | h'
        · left; exact h'
        · right; exact ⟨List.mem_cons_of_mem _ h'.1, h'.2⟩

theorem mem_eraseA {α : Type} {l : List (String × α)} {k : String}
    {p : String × α} (h : p ∈ eraseA l k) : p ∈ l := by
  induction l with
  | nil => simp [eraseA] at h
  | cons q t ih =>
    by_cases hq : q.1 = k
    · simp only [eraseA, hq, if_true] at h
      exact List.mem_cons_of_mem _ h
    · simp only [eraseA, hq, if_false, List.mem_cons] at h
      rcases h with h | h
      · exact h ▸ List.mem_cons_self _ _
      · exact List.mem_cons_of_mem _ (ih h)

theorem mem_eraseA_ne {α : Type} {l : List (String × α)} {k : String}
    {p : String × α} (hnd : (keysA l).Nodup) (h : p ∈ eraseA l k) : p.1 ≠ k := by
  induction l with
  | nil => simp [eraseA] at h
  | cons q t ih =>
    simp only [keysA, List.map_cons, List.nodup_cons] at hnd
    by_cases hq : q.1 = k
    · simp only [eraseA, hq, if_true] at h
      intro hpk
      apply hnd.1
      rw [hq, ← hpk]
      exact List.mem_map.2 ⟨p, h, rfl⟩
    · simp only [eraseA, hq, if_false, List.mem_cons] at h
      rcases h with h | h
      · exact h ▸ hq
      · exact ih hnd.2 h

theorem lookupA_mem {α : Type} {l : List (String × α)} {k : String} {v : α}
    (h : lookupA l k = some v) : (k, v) ∈ l := by
  induction l with
  | nil => simp [lookupA] at h
  | cons p t ih =>
    by_cases hp : p.1 = k
    · simp only [lookupA, hp, if_true, Option.some.injEq] at h
      have hpe : p = (k, v) := by
        cases p
        simp only at hp h
        simp [hp, h]
      rw [← hpe]
      exact List.mem_cons_self _ _
    · simp only [lookupA, hp, if_false] at h
      exact List.mem_cons_of_mem _ (ih h)

theorem keysA_insertA_nodup {α : Type} {l : List (String × α)} (k : String) (v : α)
    (h : (keysA l).Nodup) : (keysA (insertA l k v)).Nodup := by
  induction l with
  | nil => simp [insertA, keysA]
  | cons p t ih =>
    simp only [keysA, List.map_cons, List.nodup_cons] at h
    by_cases hp : p.1 = k
    · simp only [insertA, hp, if_true, keysA, List.map_cons, List.nodup_cons]
      refine ⟨?_, h.2⟩
      rw [← hp]
      exact h.1
    · simp only [insertA, hp, if_false, keysA, List.map_cons, List.nodup_cons]
      constructor
      · intro hmem
        rw [List.mem_map] at hmem
        obtain ⟨q, hq, hqe⟩ := hmem
        rcases mem_insertA h.2 hq with h' | h'
        · apply hp
          rw [← hqe, h']
        · apply h.1
          rw [← hqe]
          exact List.mem_map.2 ⟨q, h'.1, rfl⟩
      · exact ih h.2

theorem keysA_eraseA_nodup {α : Type} {l : List (String × α)} (k : String)
    (h : (keysA l).Nodup) : (keysA (eraseA l k)).Nodup := by
  induction l with
  | nil => simp [eraseA, keysA]
  | cons p t ih =>
    simp only [keysA, List.map_cons, List.nodup_cons] at h
    by_cases hp : p.1 = k
    · simp only [eraseA, hp, if_true]
      exact h.2
    · simp only [eraseA, hp, if_false, keysA, List.map_cons, List.nodup_cons]
      constructor
      · intro hmem
        rw [List.mem_map] at hmem
        obtain ⟨q, hq, hqe⟩ := hmem
        apply h.1
        rw [← hqe]
        exact List.mem_map.2 ⟨q, mem_eraseA hq, rfl⟩
      · exact ih h.2

theorem hexChar_inj : ∀ a < 16, ∀ b < 16, hexChar a = hexChar b → a = b := by decide

theorem map_hexChar_inj : ∀ l₁ l₂ : List Nat, (∀ d ∈ l₁, d < 16) → (∀ d ∈ l₂, d < 16) →
    l₁.map hexChar = l₂.map hexChar → l₁ = l₂ := by
  intro l₁
  induction l₁ with
  | nil =>
    intro l₂ _ _ h
    cases l₂ with
    | nil => rfl
    | cons b t => simp at h
  | cons a t ih =>
    intro l₂ h1 h2 h
    cases l₂ with
    | nil => simp at h
    | cons b t₂ =>
      simp only [List.map_cons, List.cons.injEq] at h
      have ha : a = b :=
        hexChar_inj a (h1 a (List.mem_cons_self _ _)) b (h2 b (List.mem_cons_self _ _)) h.1
      have ht : t = t₂ :=
        ih t₂ (fun d hd => h1 d (List.mem_cons_of_mem _ hd))
          (fun d hd => h2 d (List.mem_cons_of_mem _ hd)) h.2
      rw [ha, ht]

theorem toHexAux_eq_digits : ∀ fuel n : Nat, n ≤ fuel →
    toHexAux fuel n = (Nat.digits 16 n).reverse.map hexChar := by
  intro fuel
  induction fuel with
  | zero =>
    intro n hn
    interval_cases n
    simp [toHexAux]
  | succ f ih =>
    intro n hn
    cases n with
    | zero => simp [toHexAux]
    | succ k =>
      rw [toHexAux]
      have hdiv : (k + 1) / 16 ≤ f := by
        have h1 : (k + 1) / 16 < k + 1 := Nat.div_lt_self (Nat.succ_pos k) (by norm_num)
        omega
      rw [ih _ hdiv]
      rw [Nat.digits_def' (by norm_num : (1 : Nat) < 16) (Nat.succ_pos k)]
      simp [List.reverse_cons]

theorem renderRoomId_inj : ∀ a b : Nat, renderRoomId a = renderRoomId b → a = b := by
  intro a b h
  unfold renderRoomId at h
  rw [String.ext_iff] at h
  simp only [List.cons.injEq, true_and] at h
  rw [toHexAux_eq_digits a a (le_refl a), toHexAux_eq_digits b b (le_refl b)] at h
  have hrev : (Nat.digits 16 a).reverse.map hexChar = (Nat.digits 16 b).reverse.map hexChar := h
  have hb16 : (1 : Nat) < 16 := by norm_num
  have hda : ∀ d ∈ (Nat.digits 16 a).reverse, d < 16 := by
    intro d hd
    exact Nat.digits_lt_base hb16 (List.mem_reverse.1 hd)
  have hdb : ∀ d ∈ (Nat.digits 16 b).reverse, d < 16 := by
    intro d hd
    exact Nat.digits_lt_base hb16 (List.mem_reverse.1 hd)
  have hdig : Nat.digits 16 a = Nat.digits 16 b := by
    have := map_hexChar_inj _ _ hda hdb hrev
    exact List.reverse_inj.1 this
  have ha := Nat.ofDigits_digits 16 a
  have hb := Nat.ofDigits_digits 16 b
  rw [← ha, ← hb, hdig]

/-! ## Data model (`@dataclass` definitions, lines 29–61 of the source) -/

theorem getU_setU_self (m : Manager) (r : Nat) (u : User) (h : r < m.heap.length) :
    (m.setU r u).getU r = u := by
  simp [Manager.setU, Manager.getU, List.getD_eq_getElem?_getD,
    List.getElem?_set_eq_of_lt _ h]

theorem getU_setU_ne (m : Manager) (r r' : Nat) (u : User) (h : r' ≠ r) :
    (m.setU r u).getU r' = m.getU r' := by
  simp [Manager.setU, Manager.getU, List.getD_eq_getElem?_getD,
    List.getElem?_set_ne (Ne.symm h)]

theorem getU_id_setU (m : Manager) (r r' : Nat) (u : User) (hid : u.id = (m.getU r).id) :
    ((m.setU r u).getU r').id = (m.getU r').id := by
  by_cases h : r' = r
  · subst h
    by_cases hr : r' < m.heap.length
    · rw [getU_setU_self m r' u hr, hid]
    · simp [Manager.setU, Manager.getU, List.set_eq_of_length_le (Nat.le_of_not_lt hr)]
  · rw [getU_setU_ne m r r' u h]

theorem heap_length_setU (m : Manager) (r : Nat) (u : User) :
    (m.setU r u).heap.length = m.heap.length := by
  simp [Manager.setU]

theorem getU_name_setU (m : Manager) (r r' : Nat) (u : User)
    (hname : u.name = (m.getU r).name) :
    ((m.setU r u).getU r').name = (m.getU r').name := by
  by_cases h : r' = r
  · subst h
    by_cases hr : r' < m.heap.length
    · rw [getU_setU_self m r' u hr, hname]
    · simp [Manager.setU, Manager.getU, List.set_eq_of_length_le (Nat.le_of_not_lt hr)]
  · rw [getU_setU_ne m r r' u h]

theorem setU_rooms (m : Manager) (r : Nat) (u : User) : (m.setU r u).rooms = m.rooms := rfl

theorem setU_users (m : Manager) (r : Nat) (u : User) : (m.setU r u).users = m.users := rfl

theorem setU_user_rooms (m : Manager) (r : Nat) (u : User) :
    (m.setU r u).user_rooms = m.user_rooms := rfl

theorem setU_room_messages (m : Manager) (r : Nat) (u : User) :
    (m.setU r u).room_messages = m.room_messages := rfl

theorem setU_tick (m : Manager) (r : Nat) (u : User) : (m.setU r u).tick = m.tick := rfl

theorem lookupA_of_mem_nodup {α : Type} {l : List (String × α)} {p : String × α}
    (hnd : (keysA l).Nodup) (h : p ∈ l) : lookupA l p.1 = some p.2 := by
  induction l with
  | nil => simp at h
  | cons q t ih =>
    simp only [keysA, List.map_cons, List.nodup_cons] at hnd
    rcases List.mem_cons.1 h with h | h
    · rw [h]
      simp [lookupA]
    · have hq : ¬ q.1 = p.1 := by
        intro he
        exact hnd.1 (he ▸ (List.mem_map.2 ⟨p, h, rfl⟩))
      simp only [lookupA, hq, if_false]
      exact ih hnd.2 h

theorem lookupA_isSome_of_mem {α : Type} {l : List (String × α)} {p : String × α}
    (h : p ∈ l) : (lookupA l p.1).isSome = true := by
  induction l with
  | nil => simp at h
  | cons q t ih =>
    by_cases hq : q.1 = p.1
    · simp [lookupA, hq]
    · rcases List.mem_cons.1 h with h' | h'
      · exact absurd (h' ▸ rfl) hq
      · simp only [lookupA, hq, if_false]
        exact ih h'

/-- The `users.values()` name scan only reads ids and names, so it is
unaffected by a heap write that changes neither. -/
theorem userNameScan_setU (m : Manager) (r : Nat) (u : User) (uid : String)
    (hid : u.id = (m.getU r).id) (hname : u.name = (m.getU r).name) :
    userNameScan (m.setU r u) uid = userNameScan m uid := by
  unfold userNameScan
  have husers : (m.setU r u).users = m.users := rfl
  rw [husers]
  have hpred : ∀ p : String × Nat,
      (((m.setU r u).getU p.2).id == uid) = (((m.getU p.2).id == uid)) := by
    intro p
    rw [getU_id_setU m r p.2 u hid]
  have hfun : (fun p : String × Nat => (((m.setU r u).getU p.2).id == uid)) =
      (fun p : String × Nat => ((m.getU p.2).id == uid)) := funext hpred
  rw [hfun]
  cases hf : m.users.find? (fun p => (m.getU p.2).id == uid) with
  | none => rfl
  | some p =>
    simp only
    rw [getU_name_setU m r p.2 u hname]

/-- Host promotion (`participants[0].role = "host"`) changes neither ids
nor names, so the departure-notice name scan is unaffected. -/
theorem userNameScan_promote (mm : Manager) (r : Nat) (uid : String) :
    userNameScan (mm.setU r {mm.getU r with role := "host"}) uid = userNameScan mm uid :=
  userNameScan_setU mm r _ uid rfl rfl

/-- The name scan only depends on the session registry and the ids and
names stored in the heap. -/
theorem userNameScan_eq_of (m₁ m₂ : Manager) (uid : String)
    (hu : m₁.users = m₂.users)
    (hid : ∀ r, (m₁.getU r).id = (m₂.getU r).id)
    (hname : ∀ r, (m₁.getU r).name = (m₂.getU r).name) :
    userNameScan m₁ uid = userNameScan m₂ uid := by
  unfold userNameScan
  rw [hu]
  have hfun : (fun p : String × Nat => ((m₁.getU p.2).id == uid)) =
      (fun p : String × Nat => ((m₂.getU p.2).id == uid)) := by
    funext p
    rw [hid p.2]
  rw [hfun]
  cases hf : m₂.users.find? (fun p => (m₂.getU p.2).id == uid) with
  | none => rfl
  | some p =>
    simp only
    rw [hname p.2]

/-! ## Claim theorems -/

/-- C2: `join_room(room_id, participant)` checks its guards in order —
(a) the room exists, (b) the room is not at `max_participants`, (c) the
participant's `user_id` is not already in the room's participant list —
and on the first failing guard returns `false` without mutating any state
(room, message log, user-room mapping, or the participant record); on
success it sets the participant's `room_id` and `joined_at`, appends the
participant to the room's list, appends a system `ChatMessage` announcing
the join, and returns `true`. -/
theorem c2_join_room_guards (m : Manager) (rid : String) (uref : Nat) :
    (lookupA m.rooms rid = none → m.join_room rid uref = (m, .ok false)) ∧
    (∀ room, lookupA m.rooms rid = some room →
      (((room.participants.length : Int) ≥ room.max_participants →
         m.join_room rid uref = (m, .ok false)) ∧
       ((room.participants.length : Int) < room.max_participants →
         (m.getU uref).id ∈ room.participants.map (fun r => (m.getU r).id) →
         m.join_room rid uref = (m, .ok false)) ∧
       (∀ msgs, (room.participants.length : Int) < room.max_participants →
         (m.getU uref).id ∉ room.participants.map (fun r => (m.getU r).id) →
         lookupA m.room_messages rid = some msgs →
         uref < m.heap.length →
         m.join_room rid uref =
           (⟨m.heap.set uref {m.getU uref with room_id := some rid, joined_at := m.tick},
             insertA m.rooms rid {room with participants := room.participants ++ [uref]},
             m.users,
             insertA m.user_rooms (m.getU uref).id rid,
             insertA m.room_messages rid (msgs ++
               [⟨m.tick + 1, rid, "system", "시스템",
                 (m.getU uref).name ++ "님이 참여했습니다.", m.tick + 2, "system"⟩]),
             m.tick + 3⟩,
            .ok true)))) := by
  constructor
  · intro h
    unfold Manager.join_room
    rw [h]
  · intro room hroom
    refine ⟨?_, ?_, ?_⟩
    · intro hfull
      unfold Manager.join_room
      rw [hroom]
      simp only [ge_iff_le]
      rw [if_pos hfull]
    · intro hlt hmem
      unfold Manager.join_room
      rw [hroom]
      simp only [ge_iff_le]
      rw [if_neg (not_le.2 hlt), if_pos hmem]
    · intro msgs hlt hmem hmsgs huref
      unfold Manager.join_room
      rw [hroom]
      simp only [ge_iff_le]
      rw [if_neg (not_le.2 hlt), if_neg hmem]
      simp only [Manager.setU, Manager.getU]
      have hset : (m.heap.set uref {m.heap.getD uref defaultUser with room_id := some rid}).getD
          uref defaultUser = {m.heap.getD uref defaultUser with room_id := some rid} := by
        simp [List.getD_eq_getElem?_getD, List.getElem?_set_eq_of_lt _ huref]
      rw [hset]
      have hset2 : ((m.heap.set uref {m.heap.getD uref defaultUser with room_id := some rid}).set
          uref {m.heap.getD uref defaultUser with room_id := some rid, joined_at := m.tick}) =
          m.heap.set uref {m.heap.getD uref defaultUser with
            room_id := some rid,
            joined_at := m.tick} := by
        rw [List.set_set]
      rw [hset2]
      have hset3 : (m.heap.set uref {m.heap.getD uref defaultUser with
            room_id := some rid,
            joined_at := m.tick}).getD uref defaultUser =
          {m.heap.getD uref defaultUser with
            room_id := some rid,
            joined_at := m.tick} := by
        simp [List.getD_eq_getElem?_getD, List.getElem?_set_eq_of_lt _ huref]
      rw [hset3]
      rw [hmsgs]

/-- C6: `leave_room(user_id)` returns `None` and changes nothing when the
user is not currently in a room; otherwise it removes the user from their
room's participant list, and if the room thereby becomes empty the room
and its message log are both deleted while the now-defunct `room_id` is
still returned; when the room survives, a system `ChatMessage` announcing
the departure is appended to the room's log. -/
theorem c6_leave_room_spec (m : Manager) (uid : String) :
    (lookupA m.user_rooms uid = none → m.leave_room uid = (m, .ok none)) ∧
    (∀ rid, lookupA m.user_rooms uid = some rid → lookupA m.rooms rid = none →
      m.leave_room uid = (m, .ok none)) ∧
    (∀ rid room msgsv,
      lookupA m.user_rooms uid = some rid →
      lookupA m.rooms rid = some room →
      lookupA m.room_messages rid = some msgsv →
      (keysA m.rooms).Nodup →
      (keysA m.room_messages).Nodup →
      room.host_id ∈ room.participants.map (fun r => (m.getU r).id) →
      ((room.participants.filter (fun r => !((m.getU r).id == uid)) = [] →
         (m.leave_room uid).2 = .ok (some rid) ∧
         lookupA (m.leave_room uid).1.rooms rid = none ∧
         lookupA (m.leave_room uid).1.room_messages rid = none ∧
         (m.leave_room uid).1.users = m.users) ∧
       (room.participants.filter (fun r => !((m.getU r).id == uid)) ≠ [] →
         (m.leave_room uid).2 = .ok (some rid) ∧
         (lookupA (m.leave_room uid).1.rooms rid).map Room.participants =
           some (room.participants.filter (fun r => !((m.getU r).id == uid))) ∧
         lookupA (m.leave_room uid).1.room_messages rid =
           some (msgsv ++
             [⟨m.tick, rid, "system", "시스템",
               userNameScan m uid ++ "님이 나가셨습니다.", m.tick + 1, "system"⟩])))) := by
  refine ⟨?_, ?_, ?_⟩
  · intro h
    unfold Manager.leave_room
    rw [h]
  · intro rid hur hroom
    unfold Manager.leave_room
    simp only [hur, hroom]
  · intro rid room msgsv hur hroom hmsgs hndr hndm hhost
    constructor
    · intro hempty
      -- every participant carries the leaver's id, so the host does too
      have hall : ∀ r ∈ room.participants, (m.getU r).id = uid := by
        intro r hr
        by_contra hne
        have : r ∈ room.participants.filter (fun r => !((m.getU r).id == uid)) := by
          rw [List.mem_filter]
          exact ⟨hr, by simp [hne]⟩
        rw [hempty] at this
        simp at this
      have hhostid : room.host_id = uid := by
        rw [List.mem_map] at hhost
        obtain ⟨r, hr, hre⟩ := hhost
        rw [← hre]
        exact hall r hr
      unfold Manager.leave_room
      simp only [hur, hroom, hempty, if_pos hhostid, hmsgs]
      refine ⟨trivial, ?_, ?_, trivial⟩
      · exact lookupA_eraseA_self (keysA_insertA_nodup _ _ hndr)
      · exact lookupA_eraseA_self hndm
    · intro hne
      unfold Manager.leave_room
      cases hparts : room.participants.filter (fun r => !((m.getU r).id == uid)) with
      | nil => exact absurd hparts hne
      | cons p0 rest =>
        have hmain : ∀ s₁ s₂ : String, s₁ = s₂ →
            some (msgsv ++ [(⟨m.tick, rid, "system", "시스템",
              s₁ ++ "님이 나가셨습니다.", m.tick + 1, "system"⟩ : ChatMessage)]) =
            some (msgsv ++ [(⟨m.tick, rid, "system", "시스템",
              s₂ ++ "님이 나가셨습니다.", m.tick + 1, "system"⟩ : ChatMessage)]) := by
          intro s₁ s₂ h
          rw [h]
        by_cases hhostid : room.host_id = uid
        · simp only [hur, hroom, hparts, if_pos hhostid, setU_rooms, setU_users,
            setU_user_rooms, setU_room_messages, setU_tick, hmsgs]
          refine ⟨trivial, ?_, ?_⟩
          · rw [lookupA_insertA_self]
            rfl
          · rw [lookupA_insertA_self]
            apply hmain
            apply userNameScan_eq_of
            · rfl
            · intro r
              exact getU_id_setU
                {m with rooms := insertA m.rooms rid {room with participants := p0 :: rest},
                        user_rooms := eraseA m.user_rooms uid} p0 r _ rfl
            · intro r
              exact getU_name_setU
                {m with rooms := insertA m.rooms rid {room with participants := p0 :: rest},
                        user_rooms := eraseA m.user_rooms uid} p0 r _ rfl
        · simp only [hur, hroom, hparts, if_neg hhostid, hmsgs]
          refine ⟨trivial, ?_, ?_⟩
          · rw [lookupA_insertA_self]
            rfl
          · rw [lookupA_insertA_self]
            apply hmain
            apply userNameScan_eq_of
            · rfl
            · intro r
              rfl
            · intro r
              rfl

/-- C7: `add_message(room_id, user_id, text)` returns `None` and leaves
all state unchanged if and only if the room does not exist or no user with
that `user_id` is registered in the session registry; otherwise it appends
exactly one new `ChatMessage` (with that room id, user id, the registered
user's name, and the given text) to the room's log (truncated to the most
recent 500) and returns it. -/
theorem c7_add_message_spec (m : Manager) (rid uid text : String)
    (hempty : lookupA m.users "" = none)
    (hnd : (keysA m.users).Nodup)
    (hkeys : (lookupA m.rooms rid).isSome → (lookupA m.room_messages rid).isSome) :
    (m.add_message rid uid text = (m, .ok none) ↔
      (lookupA m.rooms rid = none ∨ ∀ p ∈ m.users, (m.getU p.2).id ≠ uid)) ∧
    (∀ p msgs, (lookupA m.rooms rid).isSome →
      m.users.find? (fun q => (m.getU q.2).id == uid) = some p →
      lookupA m.room_messages rid = some msgs →
      m.add_message rid uid text =
        ({m with
           room_messages := insertA m.room_messages rid
             (truncate500 (msgs ++
               [⟨m.tick, rid, uid, (m.getU p.2).name, text, m.tick + 1, "text"⟩])),
           tick := m.tick + 2},
         .ok (some ⟨m.tick, rid, uid, (m.getU p.2).name, text, m.tick + 1, "text"⟩))) := by
  constructor
  · cases hroom : lookupA m.rooms rid with
    | none =>
      constructor
      · intro _
        left
        rfl
      · intro _
        unfold Manager.add_message
        rw [hroom]
    | some room =>
      have hmsome := hkeys (by rw [hroom]; rfl)
      obtain ⟨msgs, hmsgs⟩ := Option.isSome_iff_exists.1 hmsome
      cases hf : m.users.find? (fun q => (m.getU q.2).id == uid) with
      | none =>
        constructor
        · intro _
          right
          intro p hp hpid
          have := List.find?_eq_none.1 hf p hp
          simp [hpid] at this
        · intro _
          unfold Manager.add_message
          rw [hroom]
          simp only [findSidByUser, hf]
          rw [hempty]
      | some q =>
        have hqmem : q ∈ m.users := List.mem_of_find?_eq_some hf
        have hqid : (m.getU q.2).id = uid := by
          have := List.find?_some hf
          simpa using this
        have hlook : lookupA m.users q.1 = some q.2 := lookupA_of_mem_nodup hnd hqmem
        constructor
        · intro heq
          unfold Manager.add_message at heq
          rw [hroom] at heq
          simp only [findSidByUser, hf] at heq
          rw [hlook, hmsgs] at heq
          simp at heq
        · intro hcontra
          rcases hcontra with h | h
          · exact Option.noConfusion h
          · exact absurd hqid (h q hqmem)
  · intro p msgs hsome hf hmsgs
    unfold Manager.add_message
    obtain ⟨room, hroom⟩ := Option.isSome_iff_exists.1 hsome
    rw [hroom]
    simp only [findSidByUser, hf]
    rw [lookupA_of_mem_nodup hnd (List.mem_of_find?_eq_some hf), hmsgs]

/-- Helper: `leave_room` never touches the session registry, and never raises as
long as every tracked room has a message log. -/
theorem leave_room_ok (m : Manager) (uid : String)
    (hkeys : ∀ p ∈ m.rooms, (lookupA m.room_messages p.1).isSome = true) :
    (m.leave_room uid).1.users = m.users ∧ ∃ r, (m.leave_room uid).2 = .ok r := by
  unfold Manager.leave_room
  cases h1 : lookupA m.user_rooms uid with
  | none => exact ⟨rfl, none, rfl⟩
  | some rid =>
    cases h2 : lookupA m.rooms rid with
    | none =>
      simp only [h2]
      exact ⟨trivial, none, rfl⟩
    | some room =>
      have hmsome := hkeys _ (lookupA_mem h2)
      obtain ⟨msgs, hmsgs⟩ := Option.isSome_iff_exists.1 hmsome
      by_cases h3 : room.host_id = uid
      · cases h4 : room.participants.filter (fun r => !((m.getU r).id == uid)) with
        | nil =>
          simp only [h2, h4, if_pos h3, hmsgs]
          exact ⟨trivial, some rid, rfl⟩
        | cons p0 rest =>
          simp only [h2, h4, if_pos h3, setU_room_messages, setU_users, hmsgs]
          exact ⟨trivial, some rid, rfl⟩
      · simp only [h2, if_neg h3, hmsgs]
        exact ⟨trivial, some rid, rfl⟩

/-- C8: for a `webrtc_offer` (likewise `webrtc_answer`,
`webrtc_ice_candidate`) event from a registered sender, if no
currently-connected user has the given `target_user_id` then no event is
delivered to anyone and no error is surfaced to the sender; if such a user
is connected, exactly that one connection receives an event of the same
name carrying `from_user_id` equal to the sender's user id plus the
payload. -/
theorem c8_webrtc_best_effort (m : Manager) (sid target blob : String) (uref : Nat)
    (hs : lookupA m.users sid = some uref) :
    ((∀ p ∈ m.users, (m.getU p.2).id ≠ target) →
       webrtcOfferH m sid target blob = (m, []) ∧
       webrtcAnswerH m sid target blob = (m, []) ∧
       webrtcIceH m sid target blob = (m, [])) ∧
    (∀ p, m.users.find? (fun q => (m.getU q.2).id == target) = some p →
       webrtcOfferH m sid target blob =
         (m, [⟨"webrtc_offer", p.1, none, .signal (m.getU uref).id blob⟩]) ∧
       webrtcAnswerH m sid target blob =
         (m, [⟨"webrtc_answer", p.1, none, .signal (m.getU uref).id blob⟩]) ∧
       webrtcIceH m sid target blob =
         (m, [⟨"webrtc_ice_candidate", p.1, none, .signal (m.getU uref).id blob⟩])) := by
  constructor
  · intro hnone
    have hf : m.users.find? (fun q => (m.getU q.2).id == target) = none := by
      rw [List.find?_eq_none]
      intro q hq
      simp [hnone q hq]
    refine ⟨?_, ?_, ?_⟩ <;>
      (first
        | (unfold webrtcOfferH; simp only [hs, hf])
        | (unfold webrtcAnswerH; simp only [hs, hf])
        | (unfold webrtcIceH; simp only [hs, hf]))
  · intro p hf
    refine ⟨?_, ?_, ?_⟩
    · unfold webrtcOfferH
      simp only [hs, hf]
    · unfold webrtcAnswerH
      simp only [hs, hf]
    · unfold webrtcIceH
      simp only [hs, hf]

/-- C9: invoking the disconnect handler for a connection whose session
entry has already been removed is a no-op — no error, no state change, no
notification; equivalently, running disconnect twice leaves the same state
(and emits nothing the second time) as running it once. -/
theorem c9_disconnect_idempotent (m : Manager) (sid : String)
    (hkeys : ∀ p ∈ m.rooms, (lookupA m.room_messages p.1).isSome = true)
    (hnd : (keysA m.users).Nodup) :
    (lookupA m.users sid = none → disconnectH m sid = (m, [])) ∧
    disconnectH (disconnectH m sid).1 sid = ((disconnectH m sid).1, []) := by
  have habsent : ∀ m' : Manager, lookupA m'.users sid = none → disconnectH m' sid = (m', []) := by
    intro m' h
    unfold disconnectH
    rw [h]
  refine ⟨habsent m, ?_⟩
  cases hu : lookupA m.users sid with
  | none =>
    rw [habsent m hu]
    exact habsent m hu
  | some uref =>
    obtain ⟨husers, r, hres⟩ := leave_room_ok m (m.getU uref).id hkeys
    have hstep : disconnectH m sid =
        ({(m.leave_room (m.getU uref).id).1 with
           users := eraseA (m.leave_room (m.getU uref).id).1.users sid},
         (match r with
          | some rid =>
            (match lookupA (m.leave_room (m.getU uref).id).1.rooms rid with
             | some room =>
               [⟨"participant_left", rid, none,
                 .participantLeft (m.getU uref).id (m.getU uref).name (some rid)⟩,
                ⟨"participants_updated", rid, none,
                  .participantsUpdated (room.participants.map
                    (fun q => (m.leave_room (m.getU uref).id).1.getU q))⟩]
             | none => [])
          | none => [])) := by
      unfold disconnectH
      rw [hu]
      simp only [hres]
      cases r <;> rfl
    rw [hstep]
    apply habsent
    simp only [husers]
    exact lookupA_eraseA_self hnd

/-- C1 counterexample: `create_room` does not validate the client-supplied
capacity, so a room created with `max_participants = 0` immediately holds
one participant above its capacity. -/
theorem c1_counterexample :
    ∃ p ∈ (runOps [.register "s1" "u1" "N1" "",
        .create "s1" ⟨none, none, some 0, none⟩]).rooms,
      ¬ ((p.2.participants.length : Int) ≤ p.2.max_participants) := by decide

/-- C3 counterexample: after the host of a three-member room leaves, the
code promotes `participants[0]`; if that member meanwhile re-joined
another room (which refreshes the shared object's `joined_at`), the new
host is not the remaining member with the earliest `joined_at`. -/
theorem c3_counterexample :
    (∃ p ∈ ((runOps [.register "s1" "h" "H" "", .register "s2" "u" "U" "",
          .register "s3" "v" "V" "", .register "s4" "w" "W" "",
          .create "s1" ⟨none, none, none, none⟩, .join "s2" "room_4",
          .join "s3" "room_4", .create "s4" ⟨none, none, none, none⟩,
          .join "s2" "room_c"]).leave_room "h").1.rooms,
      p.1 = "room_4" ∧
      ∃ rh ∈ p.2.participants,
        (((runOps [.register "s1" "h" "H" "", .register "s2" "u" "U" "",
            .register "s3" "v" "V" "", .register "s4" "w" "W" "",
            .create "s1" ⟨none, none, none, none⟩, .join "s2" "room_4",
            .join "s3" "room_4", .create "s4" ⟨none, none, none, none⟩,
            .join "s2" "room_c"]).leave_room "h").1.getU rh).id = p.2.host_id ∧
        ∃ r ∈ p.2.participants,
          (((runOps [.register "s1" "h" "H" "", .register "s2" "u" "U" "",
              .register "s3" "v" "V" "", .register "s4" "w" "W" "",
              .create "s1" ⟨none, none, none, none⟩, .join "s2" "room_4",
              .join "s3" "room_4", .create "s4" ⟨none, none, none, none⟩,
              .join "s2" "room_c"]).leave_room "h").1.getU r).joined_at <
          (((runOps [.register "s1" "h" "H" "", .register "s2" "u" "U" "",
              .register "s3" "v" "V" "", .register "s4" "w" "W" "",
              .create "s1" ⟨none, none, none, none⟩, .join "s2" "room_4",
              .join "s3" "room_4", .create "s4" ⟨none, none, none, none⟩,
              .join "s2" "room_c"]).leave_room "h").1.getU rh).joined_at) := by decide

/-- C5 counterexample: a user who creates a second room stays listed in
the first room's participant list, so `room_id` is non-null while the user
appears in two rooms' participant lists, refuting the exactly-one
biconditional. -/
theorem c5_counterexample :
    ∃ p ∈ (runOps [.register "s1" "h1" "H" "",
        .create "s1" ⟨none, none, none, none⟩,
        .create "s1" ⟨none, none, none, none⟩]).users,
      ((runOps [.register "s1" "h1" "H" "",
        .create "s1" ⟨none, none, none, none⟩,
        .create "s1" ⟨none, none, none, none⟩]).getU p.2).room_id ≠ none ∧
      ((runOps [.register "s1" "h1" "H" "",
        .create "s1" ⟨none, none, none, none⟩,
        .create "s1" ⟨none, none, none, none⟩]).rooms.countP (fun q =>
          ((runOps [.register "s1" "h1" "H" "",
            .create "s1" ⟨none, none, none, none⟩,
            .create "s1" ⟨none, none, none, none⟩]).getU p.2).id ∈
            q.2.participants.map (fun r =>
              ((runOps [.register "s1" "h1" "H" "",
                .create "s1" ⟨none, none, none, none⟩,
                .create "s1" ⟨none, none, none, none⟩]).getU r).id)) = 2) := by decide

/-- C4 amended: `add_message` truncates its room's log to the most recent
500 messages (a suffix, preserving order), so directly after any
successful `add_message` that room's log has at most 500 entries. -/
theorem c4_amended_truncation (m : Manager) (rid uid text : String)
    (p : String × Nat) (msgs : List ChatMessage)
    (hnd : (keysA m.users).Nodup)
    (hroom : (lookupA m.rooms rid).isSome)
    (hf : m.users.find? (fun q => (m.getU q.2).id == uid) = some p)
    (hmsgs : lookupA m.room_messages rid = some msgs) :
    lookupA (m.add_message rid uid text).1.room_messages rid =
      some (truncate500 (msgs ++
        [⟨m.tick, rid, uid, (m.getU p.2).name, text, m.tick + 1, "text"⟩])) ∧
    (truncate500 (msgs ++
        [⟨m.tick, rid, uid, (m.getU p.2).name, text, m.tick + 1, "text"⟩])).length =
      min (msgs.length + 1) 500 ∧
    (truncate500 (msgs ++
        [⟨m.tick, rid, uid, (m.getU p.2).name, text, m.tick + 1, "text"⟩])) <:+
      (msgs ++ [⟨m.tick, rid, uid, (m.getU p.2).name, text, m.tick + 1, "text"⟩]) := by
  obtain ⟨room, hroomv⟩ := Option.isSome_iff_exists.1 hroom
  refine ⟨?_, ?_, ?_⟩
  · unfold Manager.add_message
    rw [hroomv]
    simp only [findSidByUser, hf]
    rw [lookupA_of_mem_nodup hnd (List.mem_of_find?_eq_some hf), hmsgs]
    simp only
    rw [lookupA_insertA_self]
  · unfold truncate500
    by_cases h : (msgs ++ [(⟨m.tick, rid, uid, (m.getU p.2).name, text,
        m.tick + 1, "text"⟩ : ChatMessage)]).length > 500
    · rw [if_pos h]
      rw [List.length_drop]
      simp only [List.length_append, List.length_singleton] at h ⊢
      omega
    · rw [if_neg h]
      simp only [List.length_append, List.length_singleton] at h ⊢
      omega
  · unfold truncate500
    by_cases h : (msgs ++ [(⟨m.tick, rid, uid, (m.getU p.2).name, text,
        m.tick + 1, "text"⟩ : ChatMessage)]).length > 500
    · rw [if_pos h]
      exact List.drop_suffix _ _
    · rw [if_neg h]

theorem c4_cycle (m : Manager) (n : Nat) (h : C4Shape m n) :
    C4Shape (step (step m (.leave "u")) (.join "s2" "room_2")) (n + 2) := by
  obtain ⟨ju, tk, msgs, hlen, rfl⟩ := h
  refine ⟨tk + 2, tk + 5,
    (msgs ++ [⟨tk, "room_2", "system", "시스템", "U님이 나가셨습니다.", tk + 1, "system"⟩]) ++
      [⟨tk + 3, "room_2", "system", "시스템", "U님이 참여했습니다.", tk + 4, "system"⟩],
    ?_, ?_⟩
  · simp [hlen]
  · rfl

theorem c4_shape_k : ∀ k : Nat, C4Shape (runOps (c4Ops k)) (1 + 2 * k) := by
  intro k
  induction k with
  | zero =>
    refine ⟨4, 7, [⟨5, "room_2", "system", "시스템", "U님이 참여했습니다.", 6, "system"⟩],
      rfl, ?_⟩
    rfl
  | succ k ih =>
    have hsplit : runOps (c4Ops (k + 1)) =
        step (step (runOps (c4Ops k)) (.leave "u")) (.join "s2" "room_2") := by
      show runOps (c4Ops k ++ [.leave "u", .join "s2" "room_2"]) = _
      unfold runOps
      rw [List.foldl_append]
      rfl
    rw [hsplit, show 1 + 2 * (k + 1) = (1 + 2 * k) + 2 by ring]
    exact c4_cycle _ _ ih

/-- C4 counterexample: 250 leave/re-join cycles after the initial join
leave a room log holding 501 system messages — `join_room` and
`leave_room` append without truncating, so the 500 bound is violated. -/
theorem c4_counterexample :
    ∃ p ∈ (runOps (c4Ops 250)).room_messages, 500 < p.2.length := by
  obtain ⟨ju, tk, msgs, hlen, heq⟩ := c4_shape_k 250
  rw [heq]
  refine ⟨("room_2", msgs), by simp, ?_⟩
  rw [hlen]
  norm_num

/-! ## The reachable-state invariant -/

theorem getU_role_setU (m : Manager) (r r' : Nat) (u : User)
    (hrole : u.role = (m.getU r).role) :
    ((m.setU r u).getU r').role = (m.getU r').role := by
  by_cases h : r' = r
  · subst h
    by_cases hr : r' < m.heap.length
    · rw [getU_setU_self m r' u hr, hrole]
    · simp [Manager.setU, Manager.getU, List.set_eq_of_length_le (Nat.le_of_not_lt hr)]
  · rw [getU_setU_ne m r r' u h]

theorem getU_role_setU_host (m : Manager) (r r' : Nat) (u : User)
    (hrole : u.role = "host") (h : (m.getU r').role = "host") :
    ((m.setU r u).getU r').role = "host" := by
  by_cases he : r' = r
  · subst he
    by_cases hr : r' < m.heap.length
    · rw [getU_setU_self m r' u hr, hrole]
    · simpa [Manager.setU, Manager.getU,
        List.set_eq_of_length_le (Nat.le_of_not_lt hr)] using h
  · rw [getU_setU_ne m r r' u he]
    exact h

theorem ids_map_setU (m : Manager) (r : Nat) (u : User) (hid : u.id = (m.getU r).id)
    (parts : List Nat) :
    parts.map (fun q => ((m.setU r u).getU q).id) = parts.map (fun q => (m.getU q).id) :=
  List.map_congr_left (fun q _ => getU_id_setU m r q u hid)

theorem getU_heap_append (m : Manager) (u : User) (r : Nat) (h : r < m.heap.length) :
    (m.heap ++ [u]).getD r defaultUser = m.heap.getD r defaultUser := by
  simp [List.getD_eq_getElem?_getD, List.getElem?_append_left h]

theorem headD_mem {α : Type} {l : List α} (h : l ≠ []) (d : α) : l.headD d ∈ l := by
  cases l with
  | nil => exact absurd rfl h
  | cons a t => simp

theorem headD_append_of_ne_nil {α : Type} (l₁ l₂ : List α) (d : α) (h : l₁ ≠ []) :
    (l₁ ++ l₂).headD d = l₁.headD d := by
  cases l₁ with
  | nil => exact absurd rfl h
  | cons a t => rfl

theorem inv_init : Inv initM := by
  constructor <;> simp [initM, keysA]

/-- Registration `join_user` preserves the invariant: it only extends the heap and
(re)binds the socket id in the session registry. -/
theorem inv_joinUser (m : Manager) (sid uid name email : String) (h : Inv m) :
    Inv (joinUserH m sid uid name email).1 := by
  unfold joinUserH
  simp only
  constructor
  · exact h.rooms_nd
  · exact keysA_insertA_nodup _ _ h.users_nd
  · exact h.user_rooms_nd
  · exact h.msgs_nd
  · intro p hp
    simp only [List.length_append, List.length_singleton]
    rcases mem_insertA h.users_nd hp with he | ⟨hmem, _⟩
    · rw [he]
      omega
    · have := h.users_ok p hmem
      omega
  · intro p hp
    obtain ⟨h1, h2, h3, h4, h5, h6, h7⟩ := h.rooms_ok p hp
    have hg : ∀ r ∈ p.2.participants,
        (Manager.getU ⟨m.heap ++ [⟨uid, name, email, sid, none, true, true, m.tick,
          "participant"⟩], m.rooms, insertA m.users sid m.heap.length, m.user_rooms,
          m.room_messages, m.tick + 1⟩ r) = m.getU r := by
      intro r hr
      exact getU_heap_append m _ r (h2 r hr)
    refine ⟨h1, ?_, ?_, ?_, ?_, h6, ?_⟩
    · intro r hr
      simp only [List.length_append, List.length_singleton]
      have := h2 r hr
      omega
    · rw [List.map_congr_left (fun r hr => by rw [hg r hr])]
      exact h3
    · rw [hg _ (headD_mem h1 0)]
      exact h4
    · rw [hg _ (headD_mem h1 0)]
      exact h5
    · obtain ⟨t, ht, hte⟩ := h7
      refine ⟨t, ?_, hte⟩
      show t < m.tick + 1
      omega
  · exact h.msgs_ok
  · intro p hp
    obtain ⟨room, hr1, hr2⟩ := h.ur_ok p hp
    refine ⟨room, hr1, ?_⟩
    have hmem := lookupA_mem hr1
    obtain ⟨_, h2, _⟩ := h.rooms_ok _ hmem
    have hg2 : ∀ r ∈ room.participants,
        (Manager.getU ⟨m.heap ++ [⟨uid, name, email, sid, none, true, true, m.tick,
          "participant"⟩], m.rooms, insertA m.users sid m.heap.length, m.user_rooms,
          m.room_messages, m.tick + 1⟩ r) = m.getU r :=
      fun r hr => getU_heap_append m _ r (h2 r hr)
    rw [List.map_congr_left (fun r hr => by rw [hg2 r hr])]
    exact hr2

/-- The state produced by `create_room` for a live requester reference,
in closed form. -/
theorem create_room_fst (m : Manager) (data : RoomData) (href : Nat)
    (h : href < m.heap.length) :
    (m.create_room data href).1 =
      ⟨m.heap.set href {m.getU href with
         role := "host",
         room_id := some (renderRoomId m.tick)},
       insertA m.rooms (renderRoomId m.tick)
         ⟨renderRoomId m.tick, data.name.getD ("Room " ++ renderRoomId m.tick),
          data.description.getD "", (m.getU href).id, [href], m.tick + 1,
          data.max_participants.getD 10, data.settings.getD defaultSettings, false⟩,
       m.users,
       insertA m.user_rooms (m.getU href).id (renderRoomId m.tick),
       insertA m.room_messages (renderRoomId m.tick) [],
       m.tick + 2⟩ := by
  unfold Manager.create_room
  simp only [Manager.setU, Manager.getU]
  have hset : (m.heap.set href {m.heap.getD href defaultUser with role := "host"}).getD
      href defaultUser = {m.heap.getD href defaultUser with role := "host"} := by
    simp [List.getD_eq_getElem?_getD, List.getElem?_set_eq_of_lt _ h]
  rw [hset, List.set_set]
  have hid : ((m.heap.set href {m.heap.getD href defaultUser with
      role := "host",
      room_id := some (renderRoomId m.tick)}).getD href defaultUser).id =
      (m.heap.getD href defaultUser).id := by
    simp [List.getD_eq_getElem?_getD, List.getElem?_set_eq_of_lt _ h]
  rw [hid]

/-- Creation `create_room` (through its handler) preserves the invariant. -/
theorem inv_create (m : Manager) (sid : String) (data : RoomData) (h : Inv m) :
    Inv (createH m sid data).1 := by
  unfold createH
  cases hu : lookupA m.users sid with
  | none => exact h
  | some uref =>
    simp only
    have hlen : uref < m.heap.length := h.users_ok _ (lookupA_mem hu)
    rw [create_room_fst m data uref hlen]
    have hfresh : ∀ p ∈ m.rooms, p.1 ≠ renderRoomId m.tick := by
      intro p hp he
      obtain ⟨_, _, _, _, _, _, t, ht, hte⟩ := h.rooms_ok p hp
      rw [hte] at he
      have := renderRoomId_inj t m.tick he
      omega
    have hnotin : lookupA m.rooms (renderRoomId m.tick) = none :=
      (lookupA_eq_none_iff _ _).2 hfresh
    have hgid : ∀ r, ((m.setU uref {m.getU uref with
        role := "host",
        room_id := some (renderRoomId m.tick)}).getU r).id = (m.getU r).id :=
      fun r => getU_id_setU m uref r _ rfl
    have hgrole : ∀ r, (m.getU r).role = "host" →
        ((m.setU uref {m.getU uref with
          role := "host",
          room_id := some (renderRoomId m.tick)}).getU r).role = "host" :=
      fun r hr => getU_role_setU_host m uref r _ rfl hr
    have hroleself : ((m.setU uref {m.getU uref with
        role := "host",
        room_id := some (renderRoomId m.tick)}).getU uref).role = "host" := by
      rw [getU_setU_self m uref _ hlen]
    have hids : ∀ parts : List Nat,
        parts.map (fun q => ((m.setU uref {m.getU uref with
          role := "host",
          room_id := some (renderRoomId m.tick)}).getU q).id) =
        parts.map (fun q => (m.getU q).id) :=
      fun parts => ids_map_setU m uref {m.getU uref with
        role := "host",
        room_id := some (renderRoomId m.tick)} rfl parts
    constructor
    · exact keysA_insertA_nodup _ _ h.rooms_nd
    · exact h.users_nd
    · exact keysA_insertA_nodup _ _ h.user_rooms_nd
    · exact keysA_insertA_nodup _ _ h.msgs_nd
    · intro p hp
      show p.2 < (m.heap.set uref _).length
      rw [List.length_set]
      exact h.users_ok p hp
    · intro p hp
      rcases mem_insertA h.rooms_nd hp with he | ⟨hmem, hne⟩
      · rw [he]
        refine ⟨by simp, ?_, ?_, ?_, ?_, ?_, ?_⟩
        · intro r hr
          simp only [List.mem_singleton] at hr
          subst hr
          show r < (m.heap.set r _).length
          rw [List.length_set]
          exact hlen
        · show (List.map (fun q => ((m.setU uref {m.getU uref with
            role := "host",
            room_id := some (renderRoomId m.tick)}).getU q).id) [uref]).Nodup
          simp
        · show ((m.setU uref {m.getU uref with
            role := "host",
            room_id := some (renderRoomId m.tick)}).getU uref).id = (m.getU uref).id
          exact hgid uref
        · exact hroleself
        · rw [lookupA_insertA_self]
          rfl
        · refine ⟨m.tick, ?_, rfl⟩
          show m.tick < m.tick + 2
          omega
      · obtain ⟨h1, h2, h3, h4, h5, h6, h7⟩ := h.rooms_ok p hmem
        refine ⟨h1, ?_, ?_, ?_, ?_, ?_, ?_⟩
        · intro r hr
          show r < (m.heap.set uref _).length
          rw [List.length_set]
          exact h2 r hr
        · show (p.2.participants.map (fun q => ((m.setU uref {m.getU uref with
            role := "host",
            room_id := some (renderRoomId m.tick)}).getU q).id)).Nodup
          rw [hids]
          exact h3
        · show ((m.setU uref {m.getU uref with
            role := "host",
            room_id := some (renderRoomId m.tick)}).getU
              (p.2.participants.headD 0)).id = p.2.host_id
          rw [hgid]
          exact h4
        · exact hgrole _ h5
        · rw [lookupA_insertA_ne _ _ _ _ hne]
          exact h6
        · obtain ⟨t, ht, hte⟩ := h7
          refine ⟨t, ?_, hte⟩
          show t < m.tick + 2
          omega
    · intro p hp
      rcases mem_insertA h.msgs_nd hp with he | ⟨hmem, hne⟩
      · rw [he]
        rw [lookupA_insertA_self]
        rfl
      · rw [lookupA_insertA_ne _ _ _ _ hne]
        exact h.msgs_ok p hmem
    · intro p hp
      rcases mem_insertA h.user_rooms_nd hp with he | ⟨hmem, hne⟩
      · rw [he]
        refine ⟨_, lookupA_insertA_self _ _ _, ?_⟩
        show (m.getU uref).id ∈ List.map (fun q => ((m.setU uref {m.getU uref with
          role := "host",
          room_id := some (renderRoomId m.tick)}).getU q).id) [uref]
        rw [hids]
        simp
      · obtain ⟨room, hr1, hr2⟩ := h.ur_ok p hmem
        have hpne : p.2 ≠ renderRoomId m.tick := by
          intro he
          rw [he] at hr1
          rw [hnotin] at hr1
          cases hr1
        refine ⟨room, ?_, ?_⟩
        · rw [lookupA_insertA_ne _ _ _ _ hpne]
          exact hr1
        · show p.1 ∈ List.map (fun q => ((m.setU uref {m.getU uref with
            role := "host",
            room_id := some (renderRoomId m.tick)}).getU q).id) room.participants
          rw [hids]
          exact hr2

/-- Joining `join_room` (through its handler) preserves the invariant. -/
theorem inv_join (m : Manager) (sid rid : String) (h : Inv m) :
    Inv (joinH m sid rid).1 := by
  unfold joinH
  cases hu : lookupA m.users sid with
  | none => exact h
  | some uref =>
    simp only
    have hc2 := c2_join_room_guards m rid uref
    cases hroom : lookupA m.rooms rid with
    | none =>
      rw [hc2.1 hroom]
      exact h
    | some room =>
      by_cases hfull : (room.participants.length : Int) ≥ room.max_participants
      · rw [((hc2.2 room hroom).1 hfull)]
        exact h
      · have hlt := lt_of_not_ge hfull
        by_cases hmem : (m.getU uref).id ∈ room.participants.map (fun r => (m.getU r).id)
        · rw [((hc2.2 room hroom).2.1 hlt hmem)]
          exact h
        · obtain ⟨hrne, hrrefs, hrnd, hrhead, hrrole, hrmsgs, hrfresh⟩ :=
            h.rooms_ok _ (lookupA_mem hroom)
          obtain ⟨msgs, hmsgs⟩ := Option.isSome_iff_exists.1 hrmsgs
          have hlen : uref < m.heap.length := h.users_ok _ (lookupA_mem hu)
          rw [((hc2.2 room hroom).2.2 msgs hlt hmem hmsgs hlen)]
          simp only [lookupA_insertA_self]
          have hgid : ∀ r, ((m.setU uref {m.getU uref with
              room_id := some rid,
              joined_at := m.tick}).getU r).id = (m.getU r).id :=
            fun r => getU_id_setU m uref r {m.getU uref with
              room_id := some rid,
              joined_at := m.tick} rfl
          have hgrole : ∀ r, ((m.setU uref {m.getU uref with
              room_id := some rid,
              joined_at := m.tick}).getU r).role = (m.getU r).role :=
            fun r => getU_role_setU m uref r {m.getU uref with
              room_id := some rid,
              joined_at := m.tick} rfl
          have hids : ∀ parts : List Nat,
              parts.map (fun q => ((m.setU uref {m.getU uref with
                room_id := some rid,
                joined_at := m.tick}).getU q).id) =
              parts.map (fun q => (m.getU q).id) :=
            fun parts => ids_map_setU m uref {m.getU uref with
              room_id := some rid,
              joined_at := m.tick} rfl parts
          constructor
          · exact keysA_insertA_nodup _ _ h.rooms_nd
          · exact h.users_nd
          · exact keysA_insertA_nodup _ _ h.user_rooms_nd
          · exact keysA_insertA_nodup _ _ h.msgs_nd
          · intro p hp
            show p.2 < (m.heap.set uref _).length
            rw [List.length_set]
            exact h.users_ok p hp
          · intro p hp
            rcases mem_insertA h.rooms_nd hp with he | ⟨hpmem, hpne⟩
            · rw [he]
              refine ⟨by simp, ?_, ?_, ?_, ?_, ?_, ?_⟩
              · intro r hr
                show r < (m.heap.set uref _).length
                rw [List.length_set]
                rcases List.mem_append.1 hr with hr | hr
                · exact hrrefs r hr
                · simp only [List.mem_singleton] at hr
                  subst hr
                  exact hlen
              · show ((room.participants ++ [uref]).map
                  (fun q => ((m.setU uref {m.getU uref with
                    room_id := some rid,
                    joined_at := m.tick}).getU q).id)).Nodup
                rw [hids]
                rw [List.map_append]
                rw [List.nodup_append]
                refine ⟨hrnd, by simp, ?_⟩
                intro a ha
                simp only [List.map_singleton, List.mem_singleton]
                intro hae
                exact hmem (hae ▸ ha)
              · show ((m.setU uref {m.getU uref with
                  room_id := some rid,
                  joined_at := m.tick}).getU
                    ((room.participants ++ [uref]).headD 0)).id = room.host_id
                rw [headD_append_of_ne_nil _ _ _ hrne, hgid]
                exact hrhead
              · show ((m.setU uref {m.getU uref with
                  room_id := some rid,
                  joined_at := m.tick}).getU
                    ((room.participants ++ [uref]).headD 0)).role = "host"
                rw [headD_append_of_ne_nil _ _ _ hrne, hgrole]
                exact hrrole
              · rw [lookupA_insertA_self]
                rfl
              · obtain ⟨t, ht, hte⟩ := hrfresh
                refine ⟨t, ?_, hte⟩
                show t < m.tick + 3
                omega
            · obtain ⟨h1, h2, h3, h4, h5, h6, h7⟩ := h.rooms_ok p hpmem
              refine ⟨h1, ?_, ?_, ?_, ?_, ?_, ?_⟩
              · intro r hr
                show r < (m.heap.set uref _).length
                rw [List.length_set]
                exact h2 r hr
              · show (p.2.participants.map (fun q => ((m.setU uref {m.getU uref with
                  room_id := some rid,
                  joined_at := m.tick}).getU q).id)).Nodup
                rw [hids]
                exact h3
              · show ((m.setU uref {m.getU uref with
                  room_id := some rid,
                  joined_at := m.tick}).getU (p.2.participants.headD 0)).id = p.2.host_id
                rw [hgid]
                exact h4
              · show ((m.setU uref {m.getU uref with
                  room_id := some rid,
                  joined_at := m.tick}).getU (p.2.participants.headD 0)).role = "host"
                rw [hgrole]
                exact h5
              · rw [lookupA_insertA_ne _ _ _ _ hpne]
                exact h6
              · obtain ⟨t, ht, hte⟩ := h7
                refine ⟨t, ?_, hte⟩
                show t < m.tick + 3
                omega
          · intro p hp
            rcases mem_insertA h.msgs_nd hp with he | ⟨hpmem, hpne⟩
            · rw [he]
              rw [lookupA_insertA_self]
              rfl
            · rw [lookupA_insertA_ne _ _ _ _ hpne]
              exact h.msgs_ok p hpmem
          · intro p hp
            rcases mem_insertA h.user_rooms_nd hp with he | ⟨hpmem, hpne⟩
            · rw [he]
              refine ⟨_, lookupA_insertA_self _ _ _, ?_⟩
              show (m.getU uref).id ∈ (room.participants ++ [uref]).map
                (fun q => ((m.setU uref {m.getU uref with
                  room_id := some rid,
                  joined_at := m.tick}).getU q).id)
              rw [hids, List.map_append]
              simp
            · obtain ⟨room0, hr1, hr2⟩ := h.ur_ok p hpmem
              by_cases hpr : p.2 = rid
              · rw [hpr] at hr1 ⊢
                rw [hroom] at hr1
                have hsame : room0 = room := by
                  injection hr1 with h'
                  exact h'.symm
                subst hsame
                refine ⟨_, lookupA_insertA_self _ _ _, ?_⟩
                show p.1 ∈ (room0.participants ++ [uref]).map
                  (fun q => ((m.setU uref {m.getU uref with
                    room_id := some rid,
                    joined_at := m.tick}).getU q).id)
                rw [hids, List.map_append]
                exact List.mem_append.2 (Or.inl hr2)
              · refine ⟨room0, ?_, ?_⟩
                · rw [lookupA_insertA_ne _ _ _ _ hpr]
                  exact hr1
                · show p.1 ∈ room0.participants.map
                    (fun q => ((m.setU uref {m.getU uref with
                      room_id := some rid,
                      joined_at := m.tick}).getU q).id)
                  rw [hids]
                  exact hr2

theorem filter_headD_of_head (l : List Nat) (f : Nat → Bool)
    (hl : l ≠ []) (hh : f (l.headD 0) = true) :
    (l.filter f).headD 0 = l.headD 0 := by
  cases l with
  | nil => exact absurd rfl hl
  | cons a t =>
    simp only [List.headD_cons] at hh ⊢
    rw [List.filter_cons, if_pos hh]
    rfl

theorem setU_heap (m : Manager) (r : Nat) (u : User) :
    (m.setU r u).heap = m.heap.set r u := rfl

/-- Leaving `leave_room` preserves the invariant. -/
theorem inv_leave (m : Manager) (uid : String) (h : Inv m) :
    Inv (m.leave_room uid).1 := by
  unfold Manager.leave_room
  cases hur : lookupA m.user_rooms uid with
  | none => exact h
  | some rid =>
    cases hroom : lookupA m.rooms rid with
    | none =>
      simp only [hroom]
      exact h
    | some room =>
      obtain ⟨hrne, hrrefs, hrnd, hrhead, hrrole, hrmsgs, hrfresh⟩ :=
        h.rooms_ok _ (lookupA_mem hroom)
      obtain ⟨msgs, hmsgs⟩ := Option.isSome_iff_exists.1 hrmsgs
      have hsubp : ∀ r ∈ room.participants.filter (fun q => !((m.getU q).id == uid)),
          r ∈ room.participants := fun r hr => (List.mem_filter.1 hr).1
      have hndp : ((room.participants.filter (fun q => !((m.getU q).id == uid))).map
          (fun q => (m.getU q).id)).Nodup :=
        List.Nodup.sublist ((List.filter_sublist _).map _) hrnd
      by_cases hhost : room.host_id = uid
      · cases hparts : room.participants.filter (fun q => !((m.getU q).id == uid)) with
        | nil =>
          -- the room is deleted together with its log
          have hallid : ∀ r ∈ room.participants, (m.getU r).id = uid := by
            intro r hr
            by_contra hne
            have : r ∈ room.participants.filter (fun q => !((m.getU q).id == uid)) :=
              List.mem_filter.2 ⟨hr, by simp [hne]⟩
            rw [hparts] at this
            simp at this
          simp only [hroom, hparts, if_pos hhost, hmsgs]
          constructor
          · exact keysA_eraseA_nodup _ (keysA_insertA_nodup _ _ h.rooms_nd)
          · exact h.users_nd
          · exact keysA_eraseA_nodup _ h.user_rooms_nd
          · exact keysA_eraseA_nodup _ h.msgs_nd
          · exact h.users_ok
          · intro p hp
            have hp1 := mem_eraseA hp
            have hpne := mem_eraseA_ne (keysA_insertA_nodup _ _ h.rooms_nd) hp
            rcases mem_insertA h.rooms_nd hp1 with he | ⟨hpmem, _⟩
            · exact absurd (by rw [he]) hpne
            · obtain ⟨h1, h2, h3, h4, h5, h6, h7⟩ := h.rooms_ok p hpmem
              refine ⟨h1, h2, h3, h4, h5, ?_, h7⟩
              rw [lookupA_eraseA_ne _ _ _ hpne]
              exact h6
          · intro p hp
            have hp1 := mem_eraseA hp
            have hpne := mem_eraseA_ne h.msgs_nd hp
            rw [lookupA_eraseA_ne _ _ _ hpne, lookupA_insertA_ne _ _ _ _ hpne]
            exact h.msgs_ok p hp1
          · intro p hp
            have hp1 := mem_eraseA hp
            have hpne := mem_eraseA_ne h.user_rooms_nd hp
            obtain ⟨room0, hr1, hr2⟩ := h.ur_ok p hp1
            have hprid : p.2 ≠ rid := by
              intro he
              rw [he, hroom] at hr1
              injection hr1 with h'
              subst h'
              obtain ⟨r, hrm, hre⟩ := List.mem_map.1 hr2
              apply hpne
              rw [← hre]
              exact hallid r hrm
            refine ⟨room0, ?_, hr2⟩
            rw [lookupA_eraseA_ne _ _ _ hprid, lookupA_insertA_ne _ _ _ _ hprid]
            exact hr1
        | cons p0 rest =>
          -- host departure with survivors: promote the first remaining member
          have hp0mem : p0 ∈ room.participants := hsubp p0 (by rw [hparts]; simp)
          have hp0len : p0 < m.heap.length := hrrefs p0 hp0mem
          simp only [hroom, hparts, if_pos hhost, setU_rooms, setU_users,
            setU_user_rooms, setU_room_messages, setU_tick, hmsgs]
          have hgid : ∀ r, ((m.setU p0 {m.getU p0 with role := "host"}).getU r).id =
              (m.getU r).id :=
            fun r => getU_id_setU m p0 r {m.getU p0 with role := "host"} rfl
          have hgrole : ∀ r, (m.getU r).role = "host" →
              ((m.setU p0 {m.getU p0 with role := "host"}).getU r).role = "host" :=
            fun r hr => getU_role_setU_host m p0 r {m.getU p0 with role := "host"} rfl hr
          have hroleself : ((m.setU p0 {m.getU p0 with role := "host"}).getU p0).role =
              "host" := by
            rw [getU_setU_self m p0 _ hp0len]
          have hids : ∀ parts : List Nat,
              parts.map (fun q => ((m.setU p0 {m.getU p0 with role := "host"}).getU q).id) =
              parts.map (fun q => (m.getU q).id) :=
            fun parts => ids_map_setU m p0 {m.getU p0 with role := "host"} rfl parts
          constructor
          · exact keysA_insertA_nodup _ _ (keysA_insertA_nodup _ _ h.rooms_nd)
          · exact h.users_nd
          · exact keysA_eraseA_nodup _ h.user_rooms_nd
          · exact keysA_insertA_nodup _ _ h.msgs_nd
          · intro p hp
            show p.2 < (m.heap.set p0 _).length
            rw [List.length_set]
            exact h.users_ok p hp
          · intro p hp
            rcases mem_insertA (keysA_insertA_nodup _ _ h.rooms_nd) hp with he | ⟨hp1, hpne⟩
            · rw [he]
              refine ⟨by simp, ?_, ?_, ?_, ?_, ?_, ?_⟩
              · intro r hr
                show r < (m.heap.set p0 _).length
                rw [List.length_set]
                exact hrrefs r (hsubp r (by rw [hparts]; exact hr))
              · show ((p0 :: rest).map (fun q => ((m.setU p0 {m.getU p0 with
                  role := "host"}).getU q).id)).Nodup
                rw [hids]
                rw [← hparts]
                exact hndp
              · rfl
              · exact hroleself
              · rw [lookupA_insertA_self]
                rfl
              · obtain ⟨t, ht, hte⟩ := hrfresh
                refine ⟨t, ?_, hte⟩
                show t < m.tick + 2
                omega
            · rcases mem_insertA h.rooms_nd hp1 with he2 | ⟨hp2, _⟩
              · exact absurd (by rw [he2]) hpne
              · obtain ⟨h1, h2, h3, h4, h5, h6, h7⟩ := h.rooms_ok p hp2
                refine ⟨h1, ?_, ?_, ?_, ?_, ?_, ?_⟩
                · intro r hr
                  show r < (m.heap.set p0 _).length
                  rw [List.length_set]
                  exact h2 r hr
                · show (p.2.participants.map (fun q => ((m.setU p0 {m.getU p0 with
                    role := "host"}).getU q).id)).Nodup
                  rw [hids]
                  exact h3
                · show ((m.setU p0 {m.getU p0 with role := "host"}).getU
                    (p.2.participants.headD 0)).id = p.2.host_id
                  rw [hgid]
                  exact h4
                · exact hgrole _ h5
                · rw [lookupA_insertA_ne _ _ _ _ hpne]
                  exact h6
                · obtain ⟨t, ht, hte⟩ := h7
                  refine ⟨t, ?_, hte⟩
                  show t < m.tick + 2
                  omega
          · intro p hp
            rcases mem_insertA h.msgs_nd hp with he | ⟨hp1, hpne⟩
            · rw [he]
              rw [lookupA_insertA_self]
              rfl
            · rw [lookupA_insertA_ne _ _ _ _ hpne, lookupA_insertA_ne _ _ _ _ hpne]
              exact h.msgs_ok p hp1
          · intro p hp
            have hp1 := mem_eraseA hp
            have hpne := mem_eraseA_ne h.user_rooms_nd hp
            obtain ⟨room0, hr1, hr2⟩ := h.ur_ok p hp1
            by_cases hpr : p.2 = rid
            · rw [hpr] at hr1 ⊢
              rw [hroom] at hr1
              have hsame : room0 = room := by
                injection hr1 with h'
                exact h'.symm
              subst hsame
              refine ⟨_, lookupA_insertA_self _ _ _, ?_⟩
              show p.1 ∈ (p0 :: rest).map (fun q => ((m.setU p0 {m.getU p0 with
                role := "host"}).getU q).id)
              rw [hids, ← hparts]
              obtain ⟨r, hrm, hre⟩ := List.mem_map.1 hr2
              refine List.mem_map.2 ⟨r, ?_, hre⟩
              refine List.mem_filter.2 ⟨hrm, ?_⟩
              have hne2 : (m.getU r).id ≠ uid := by
                rw [hre]
                exact hpne
              simp [hne2]
            · refine ⟨room0, ?_, ?_⟩
              · rw [lookupA_insertA_ne _ _ _ _ hpr, lookupA_insertA_ne _ _ _ _ hpr]
                exact hr1
              · show p.1 ∈ room0.participants.map (fun q => ((m.setU p0 {m.getU p0 with
                  role := "host"}).getU q).id)
                rw [hids]
                exact hr2
      · -- a non-host member leaves: the room survives unchanged otherwise
        have hheadne : (m.getU (room.participants.headD 0)).id ≠ uid := by
          rw [hrhead]
          exact hhost
        have hheadf : (!((m.getU (room.participants.headD 0)).id == uid)) = true := by
          cases hbe : ((m.getU (room.participants.headD 0)).id == uid) with
          | true => exact absurd (eq_of_beq hbe) hheadne
          | false => rfl
        have hfilterhead := filter_headD_of_head room.participants
          (fun q => !((m.getU q).id == uid)) hrne hheadf
        have hfne : room.participants.filter (fun q => !((m.getU q).id == uid)) ≠ [] := by
          intro he
          have : room.participants.headD 0 ∈
              room.participants.filter (fun q => !((m.getU q).id == uid)) :=
            List.mem_filter.2 ⟨headD_mem hrne 0, hheadf⟩
          rw [he] at this
          simp at this
        cases hparts : room.participants.filter (fun q => !((m.getU q).id == uid)) with
        | nil => exact absurd hparts hfne
        | cons p0 rest =>
          simp only [hroom, hparts, if_neg hhost, hmsgs]
          constructor
          · exact keysA_insertA_nodup _ _ h.rooms_nd
          · exact h.users_nd
          · exact keysA_eraseA_nodup _ h.user_rooms_nd
          · exact keysA_insertA_nodup _ _ h.msgs_nd
          · exact h.users_ok
          · intro p hp
            rcases mem_insertA h.rooms_nd hp with he | ⟨hp1, hpne⟩
            · rw [he]
              refine ⟨by simp, ?_, ?_, ?_, ?_, ?_, ?_⟩
              · intro r hr
                exact hrrefs r (hsubp r (by rw [hparts]; exact hr))
              · rw [← hparts]
                exact hndp
              · show (m.getU ((p0 :: rest).headD 0)).id = room.host_id
                rw [← hparts, hfilterhead]
                exact hrhead
              · show (m.getU ((p0 :: rest).headD 0)).role = "host"
                rw [← hparts, hfilterhead]
                exact hrrole
              · rw [lookupA_insertA_self]
                rfl
              · obtain ⟨t, ht, hte⟩ := hrfresh
                refine ⟨t, ?_, hte⟩
                show t < m.tick + 2
                omega
            · obtain ⟨h1, h2, h3, h4, h5, h6, h7⟩ := h.rooms_ok p hp1
              refine ⟨h1, h2, h3, h4, h5, ?_, ?_⟩
              · rw [lookupA_insertA_ne _ _ _ _ hpne]
                exact h6
              · obtain ⟨t, ht, hte⟩ := h7
                refine ⟨t, ?_, hte⟩
                show t < m.tick + 2
                omega
          · intro p hp
            rcases mem_insertA h.msgs_nd hp with he | ⟨hp1, hpne⟩
            · rw [he]
              rw [lookupA_insertA_self]
              rfl
            · rw [lookupA_insertA_ne _ _ _ _ hpne]
              exact h.msgs_ok p hp1
          · intro p hp
            have hp1 := mem_eraseA hp
            have hpne := mem_eraseA_ne h.user_rooms_nd hp
            obtain ⟨room0, hr1, hr2⟩ := h.ur_ok p hp1
            by_cases hpr : p.2 = rid
            · rw [hpr] at hr1 ⊢
              rw [hroom] at hr1
              have hsame : room0 = room := by
                injection hr1 with h'
                exact h'.symm
              subst hsame
              refine ⟨_, lookupA_insertA_self _ _ _, ?_⟩
              show p.1 ∈ (p0 :: rest).map (fun q => (m.getU q).id)
              rw [← hparts]
              obtain ⟨r, hrm, hre⟩ := List.mem_map.1 hr2
              refine List.mem_map.2 ⟨r, ?_, hre⟩
              refine List.mem_filter.2 ⟨hrm, ?_⟩
              have hne2 : (m.getU r).id ≠ uid := by
                rw [hre]
                exact hpne
              simp [hne2]
            · refine ⟨room0, ?_, hr2⟩
              rw [lookupA_insertA_ne _ _ _ _ hpr]
              exact hr1

/-- Posting `add_message` preserves the invariant. -/
theorem inv_addMsg (m : Manager) (rid uid text : String) (h : Inv m) :
    Inv (m.add_message rid uid text).1 := by
  unfold Manager.add_message
  cases hroom : lookupA m.rooms rid with
  | none => exact h
  | some room =>
    simp only [hroom]
    cases hu : lookupA m.users (findSidByUser m uid) with
    | none => exact h
    | some uref =>
      have hmsome := (h.rooms_ok _ (lookupA_mem hroom)).2.2.2.2.2.1
      obtain ⟨msgs, hmsgs⟩ := Option.isSome_iff_exists.1 hmsome
      simp only [hu, hmsgs]
      constructor
      · exact h.rooms_nd
      · exact h.users_nd
      · exact h.user_rooms_nd
      · exact keysA_insertA_nodup _ _ h.msgs_nd
      · exact h.users_ok
      · intro p hp
        obtain ⟨h1, h2, h3, h4, h5, h6, h7⟩ := h.rooms_ok p hp
        refine ⟨h1, h2, h3, h4, h5, ?_, ?_⟩
        · by_cases hpe : p.1 = rid
          · rw [hpe, lookupA_insertA_self]
            rfl
          · rw [lookupA_insertA_ne _ _ _ _ hpe]
            exact h6
        · obtain ⟨t, ht, hte⟩ := h7
          refine ⟨t, ?_, hte⟩
          show t < m.tick + 2
          omega
      · intro p hp
        rcases mem_insertA h.msgs_nd hp with he | ⟨hp1, _⟩
        · rw [he]
          rw [hroom]
          rfl
        · exact h.msgs_ok p hp1
      · exact h.ur_ok

/-- Removing a session entry preserves the invariant. -/
theorem inv_users_erase (m : Manager) (sid : String) (h : Inv m) :
    Inv {m with users := eraseA m.users sid} := by
  constructor
  · exact h.rooms_nd
  · exact keysA_eraseA_nodup _ h.users_nd
  · exact h.user_rooms_nd
  · exact h.msgs_nd
  · intro p hp
    exact h.users_ok p (mem_eraseA hp)
  · exact h.rooms_ok
  · exact h.msgs_ok
  · exact h.ur_ok

/-- The disconnect handler preserves the invariant. -/
theorem inv_disconnect (m : Manager) (sid : String) (h : Inv m) :
    Inv (disconnectH m sid).1 := by
  unfold disconnectH
  cases hu : lookupA m.users sid with
  | none => exact h
  | some uref =>
    simp only
    have h1 := inv_leave m (m.getU uref).id h
    have hkeys : ∀ p ∈ m.rooms, (lookupA m.room_messages p.1).isSome = true :=
      fun p hp => (h.rooms_ok p hp).2.2.2.2.2.1
    obtain ⟨husers, r, hres⟩ := leave_room_ok m (m.getU uref).id hkeys
    simp only [hres]
    cases r with
    | none => exact inv_users_erase _ sid h1
    | some rid => exact inv_users_erase _ sid h1

/-- Every operation preserves the invariant. -/
theorem inv_step (m : Manager) (op : Op) (h : Inv m) : Inv (step m op) := by
  cases op with
  | register sid uid name email => exact inv_joinUser m sid uid name email h
  | create sid data => exact inv_create m sid data h
  | join sid rid => exact inv_join m sid rid h
  | leave uid => exact inv_leave m uid h
  | addMsg rid uid text => exact inv_addMsg m rid uid text h
  | disconnect sid => exact inv_disconnect m sid h

theorem inv_foldl : ∀ (ops : List Op) (m : Manager), Inv m → Inv (ops.foldl step m) := by
  intro ops
  induction ops with
  | nil => exact fun m h => h
  | cons op t ih =>
    intro m h
    exact ih (step m op) (inv_step m op h)

/-- Every state reachable from the initial manager satisfies the
invariant. -/
theorem inv_runOps (ops : List Op) : Inv (runOps ops) :=
  inv_foldl ops initM inv_init

/-- C10: for every non-empty room reachable by manager operations, the
first element of the participants list is the host
(`participants[0].id == host_id` and `participants[0].role == "host"`) —
every reachable room is in fact non-empty — and the room-listing endpoint
reports `participants[0].name` as the room's host display name. -/
theorem c10_head_is_host (ops : List Op) :
    ∀ p ∈ (runOps ops).rooms,
      p.2.participants ≠ [] ∧
      ((runOps ops).getU (p.2.participants.headD 0)).id = p.2.host_id ∧
      ((runOps ops).getU (p.2.participants.headD 0)).role = "host" ∧
      (⟨p.2.id, p.2.name, p.2.description, p.2.participants.length,
        p.2.max_participants,
        ((runOps ops).getU (p.2.participants.headD 0)).name,
        p.2.created_at, p.2.settings⟩ : RoomListing) ∈ getRooms (runOps ops) := by
  intro p hp
  obtain ⟨h1, _, _, h4, h5, _, _⟩ := (inv_runOps ops).rooms_ok p hp
  refine ⟨h1, h4, h5, ?_⟩
  unfold getRooms
  refine List.mem_map.2 ⟨p, hp, ?_⟩
  cases hc : p.2.participants with
  | nil => exact absurd hc h1
  | cons r t =>
    simp only [hc, List.headD_cons]

/-- C5 amended: the user→room map never dangles — whenever `user_rooms`
maps a user id to a room id, that room exists and lists the user among its
participants.  (The original biconditional fails: a user who creates or
joins a second room remains listed in the first room's participant list,
see the counterexample.) -/
theorem c5_amended_user_rooms_sound (ops : List Op) :
    ∀ p ∈ (runOps ops).user_rooms,
      ∃ room, lookupA (runOps ops).rooms p.2 = some room ∧
        p.1 ∈ room.participants.map (fun r => ((runOps ops).getU r).id) :=
  (inv_runOps ops).ur_ok

/-- C3 amended: in every reachable state each room is non-empty and its
`host_id` is the id of a current member (in fact of `participants[0]`);
and when the host leaves a room that keeps at least one member,
`leave_room` promotes the *first remaining participant* — not necessarily
the member with the earliest `joined_at`, since a shared `User` object's
`joined_at` is refreshed when that user joins another room (see the
counterexample) — setting its role to `"host"` and `host_id` to its id. -/
theorem c3_amended_host_invariant (ops : List Op) :
    (∀ p ∈ (runOps ops).rooms,
      p.2.participants ≠ [] ∧
      p.2.host_id ∈ p.2.participants.map (fun r => ((runOps ops).getU r).id)) ∧
    (∀ uid rid room p0 rest,
      lookupA (runOps ops).user_rooms uid = some rid →
      lookupA (runOps ops).rooms rid = some room →
      room.host_id = uid →
      room.participants.filter (fun r => !(((runOps ops).getU r).id == uid)) = p0 :: rest →
      ((runOps ops).leave_room uid).2 = .ok (some rid) ∧
      (lookupA ((runOps ops).leave_room uid).1.rooms rid).map Room.host_id =
        some ((runOps ops).getU p0).id ∧
      (lookupA ((runOps ops).leave_room uid).1.rooms rid).map Room.participants =
        some (p0 :: rest) ∧
      (((runOps ops).leave_room uid).1.getU p0).role = "host") := by
  have h := inv_runOps ops
  constructor
  · intro p hp
    obtain ⟨h1, _, _, h4, _, _, _⟩ := h.rooms_ok p hp
    refine ⟨h1, ?_⟩
    rw [← h4]
    exact List.mem_map.2 ⟨p.2.participants.headD 0, headD_mem h1 0, rfl⟩
  · intro uid rid room p0 rest hur hroom hhostid hparts
    obtain ⟨hrne, hrrefs, _, _, _, hrmsgs, _⟩ := h.rooms_ok _ (lookupA_mem hroom)
    obtain ⟨msgs, hmsgs⟩ := Option.isSome_iff_exists.1 hrmsgs
    have hp0mem : p0 ∈ room.participants :=
      (List.mem_filter.1 (by rw [hparts]; exact List.mem_cons_self _ _)).1
    have hp0len : p0 < (runOps ops).heap.length := hrrefs p0 hp0mem
    unfold Manager.leave_room
    simp only [hur, hroom, hparts, if_pos hhostid, setU_rooms, setU_users,
      setU_user_rooms, setU_room_messages, setU_tick, hmsgs]
    refine ⟨trivial, ?_, ?_, ?_⟩
    · rw [lookupA_insertA_self]
      show some ((((runOps ops).setU p0 {(runOps ops).getU p0 with
        role := "host"}).getU p0).id) = some (((runOps ops).getU p0).id)
      rw [getU_id_setU (runOps ops) p0 p0 {(runOps ops).getU p0 with role := "host"} rfl]
    · rw [lookupA_insertA_self]
      rfl
    · show (((runOps ops).setU p0 {(runOps ops).getU p0 with
        role := "host"}).getU p0).role = "host"
      rw [getU_setU_self (runOps ops) p0 _ hp0len]

theorem cap_leave (m : Manager) (uid : String) (h : Inv m) (hc : CapInv m) :
    CapInv (m.leave_room uid).1 := by
  unfold Manager.leave_room
  cases hur : lookupA m.user_rooms uid with
  | none => exact hc
  | some rid =>
    cases hroom : lookupA m.rooms rid with
    | none =>
      simp only [hroom]
      exact hc
    | some room =>
      have hcap : (room.participants.length : Int) ≤ room.max_participants :=
        hc _ (lookupA_mem hroom)
      have hfle : ((room.participants.filter
          (fun q => !((m.getU q).id == uid))).length : Int) ≤ room.max_participants := by
        have := List.length_filter_le (fun q => !((m.getU q).id == uid)) room.participants
        omega
      obtain ⟨_, _, _, _, _, hrmsgs, _⟩ := h.rooms_ok _ (lookupA_mem hroom)
      obtain ⟨msgs, hmsgs⟩ := Option.isSome_iff_exists.1 hrmsgs
      by_cases hhost : room.host_id = uid
      · cases hparts : room.participants.filter (fun q => !((m.getU q).id == uid)) with
        | nil =>
          simp only [hroom, hparts, if_pos hhost, hmsgs]
          intro p hp
          have hp1 := mem_eraseA hp
          have hpne := mem_eraseA_ne (keysA_insertA_nodup _ _ h.rooms_nd) hp
          rcases mem_insertA h.rooms_nd hp1 with he | ⟨hp2, _⟩
          · exact absurd (by rw [he]) hpne
          · exact hc p hp2
        | cons p0 rest =>
          simp only [hroom, hparts, if_pos hhost, setU_rooms, setU_users,
            setU_user_rooms, setU_room_messages, setU_tick, hmsgs]
          intro p hp
          rcases mem_insertA (keysA_insertA_nodup _ _ h.rooms_nd) hp with he | ⟨hp1, hpne⟩
          · rw [he]
            show ((p0 :: rest).length : Int) ≤ room.max_participants
            rw [← hparts]
            exact hfle
          · rcases mem_insertA h.rooms_nd hp1 with he2 | ⟨hp2, _⟩
            · exact absurd (by rw [he2]) hpne
            · exact hc p hp2
      · cases hparts : room.participants.filter (fun q => !((m.getU q).id == uid)) with
        | nil =>
          simp only [hroom, hparts, if_neg hhost, hmsgs]
          intro p hp
          rcases mem_insertA h.rooms_nd hp with he | ⟨hp1, _⟩
          · rw [he]
            show (([] : List Nat).length : Int) ≤ room.max_participants
            rw [← hparts]
            exact hfle
          · exact hc p hp1
        | cons p0 rest =>
          simp only [hroom, hparts, if_neg hhost, hmsgs]
          intro p hp
          rcases mem_insertA h.rooms_nd hp with he | ⟨hp1, _⟩
          · rw [he]
            show ((p0 :: rest).length : Int) ≤ room.max_participants
            rw [← hparts]
            exact hfle
          · exact hc p hp1

theorem cap_step (m : Manager) (op : Op) (h : Inv m) (hc : CapInv m)
    (hop : capOkOp op = true) : CapInv (step m op) := by
  cases op with
  | register sid uid name email => exact hc
  | create sid data =>
    show CapInv (createH m sid data).1
    unfold createH
    cases hu : lookupA m.users sid with
    | none => exact hc
    | some uref =>
      simp only
      have hlen : uref < m.heap.length := h.users_ok _ (lookupA_mem hu)
      rw [create_room_fst m data uref hlen]
      intro p hp
      rcases mem_insertA h.rooms_nd hp with he | ⟨hp1, _⟩
      · rw [he]
        show ((1 : Nat) : Int) ≤ data.max_participants.getD 10
        have := of_decide_eq_true hop
        exact_mod_cast this
      · exact hc p hp1
  | join sid rid =>
    show CapInv (joinH m sid rid).1
    unfold joinH
    cases hu : lookupA m.users sid with
    | none => exact hc
    | some uref =>
      simp only
      have hc2 := c2_join_room_guards m rid uref
      cases hroom : lookupA m.rooms rid with
      | none =>
        rw [hc2.1 hroom]
        exact hc
      | some room =>
        by_cases hfull : (room.participants.length : Int) ≥ room.max_participants
        · rw [((hc2.2 room hroom).1 hfull)]
          exact hc
        · have hlt := lt_of_not_ge hfull
          by_cases hmem : (m.getU uref).id ∈ room.participants.map (fun r => (m.getU r).id)
          · rw [((hc2.2 room hroom).2.1 hlt hmem)]
            exact hc
          · obtain ⟨_, _, _, _, _, hrmsgs, _⟩ := h.rooms_ok _ (lookupA_mem hroom)
            obtain ⟨msgs, hmsgs⟩ := Option.isSome_iff_exists.1 hrmsgs
            have hlen : uref < m.heap.length := h.users_ok _ (lookupA_mem hu)
            rw [((hc2.2 room hroom).2.2 msgs hlt hmem hmsgs hlen)]
            simp only [lookupA_insertA_self]
            intro p hp
            rcases mem_insertA h.rooms_nd hp with he | ⟨hp1, _⟩
            · rw [he]
              show (((room.participants ++ [uref]).length : Nat) : Int) ≤
                room.max_participants
              rw [List.length_append, List.length_singleton]
              push_cast
              push_cast at hlt
              omega
            · exact hc p hp1
  | leave uid => exact cap_leave m uid h hc
  | addMsg rid uid text =>
    show CapInv (m.add_message rid uid text).1
    unfold Manager.add_message
    cases hroom : lookupA m.rooms rid with
    | none => exact hc
    | some room =>
      simp only [hroom]
      cases hu : lookupA m.users (findSidByUser m uid) with
      | none => exact hc
      | some uref =>
        have hmsome := (h.rooms_ok _ (lookupA_mem hroom)).2.2.2.2.2.1
        obtain ⟨msgs, hmsgs⟩ := Option.isSome_iff_exists.1 hmsome
        simp only [hu, hmsgs]
        exact hc
  | disconnect sid =>
    show CapInv (disconnectH m sid).1
    unfold disconnectH
    cases hu : lookupA m.users sid with
    | none => exact hc
    | some uref =>
      simp only
      have hcap1 := cap_leave m (m.getU uref).id h hc
      have hkeys : ∀ p ∈ m.rooms, (lookupA m.room_messages p.1).isSome = true :=
        fun p hp => (h.rooms_ok p hp).2.2.2.2.2.1
      obtain ⟨husers, r, hres⟩ := leave_room_ok m (m.getU uref).id hkeys
      simp only [hres]
      cases r with
      | none => exact hcap1
      | some rid => exact hcap1

theorem cap_foldl : ∀ (ops : List Op) (m : Manager), Inv m → CapInv m →
    (∀ op ∈ ops, capOkOp op = true) → CapInv (ops.foldl step m) := by
  intro ops
  induction ops with
  | nil => exact fun m _ hc _ => hc
  | cons op t ih =>
    intro m h hc hops
    exact ih (step m op) (inv_step m op h)
      (cap_step m op h hc (hops op (List.mem_cons_self _ _)))
      (fun o ho => hops o (List.mem_cons_of_mem _ ho))

/-- C1 amended: provided every `create_room` request carries a capacity of
at least 1 (the code does not validate the client-supplied
`max_participants`, see the counterexample), every room reachable by any
sequence of manager operations satisfies
`len(participants) ≤ max_participants`. -/
theorem c1_amended_capacity (ops : List Op)
    (hops : ∀ op ∈ ops, capOkOp op = true) :
    ∀ p ∈ (runOps ops).rooms,
      (p.2.participants.length : Int) ≤ p.2.max_participants :=
  cap_foldl ops initM inv_init (by intro p hp; simp [initM] at hp) hops

/-- Witness: the capacity bound holds on a concrete run whose create
request uses the default capacity. -/
theorem c1_amended_capacity_witness :
    (∀ op ∈ ([.register "s1" "u1" "N1" "",
        .create "s1" ⟨none, none, none, none⟩] : List Op), capOkOp op = true) ∧
    ∀ p ∈ (runOps [.register "s1" "u1" "N1" "",
        .create "s1" ⟨none, none, none, none⟩]).rooms,
      (p.2.participants.length : Int) ≤ p.2.max_participants :=
  ⟨by decide, c1_amended_capacity _ (by decide)⟩

/-- Witness for C2: joining a concrete two-user state succeeds and records
the membership. -/
theorem c2_join_room_guards_witness :
    lookupA ((runOps [.register "s1" "h" "H" "", .register "s2" "u" "U" "",
        .create "s1" ⟨none, none, none, none⟩]).join_room "room_2" 1).1.user_rooms "u" =
      some "room_2" ∧
    ((runOps [.register "s1" "h" "H" "", .register "s2" "u" "U" "",
        .create "s1" ⟨none, none, none, none⟩]).join_room "room_2" 1).2 = .ok true := by
  have h := (c2_join_room_guards (runOps [.register "s1" "h" "H" "",
      .register "s2" "u" "U" "", .create "s1" ⟨none, none, none, none⟩]) "room_2" 1).2
    ⟨"room_2", "Room room_2", "", "h", [0], 3, 10, defaultSettings, false⟩ (by decide)
  have h2 := h.2.2 [] (by decide) (by decide) (by decide) (by decide)
  rw [h2]
  exact ⟨by decide, rfl⟩

/-- Witness for the amended C3: in the concrete stale-`joined_at` run, the
host's departure promotes the first remaining participant. -/
theorem c3_amended_witness :
    ((runOps [.register "s1" "h" "H" "", .register "s2" "u" "U" "",
        .register "s3" "v" "V" "", .register "s4" "w" "W" "",
        .create "s1" ⟨none, none, none, none⟩, .join "s2" "room_4",
        .join "s3" "room_4", .create "s4" ⟨none, none, none, none⟩,
        .join "s2" "room_c"]).leave_room "h").2 = .ok (some "room_4") ∧
    (lookupA ((runOps [.register "s1" "h" "H" "", .register "s2" "u" "U" "",
        .register "s3" "v" "V" "", .register "s4" "w" "W" "",
        .create "s1" ⟨none, none, none, none⟩, .join "s2" "room_4",
        .join "s3" "room_4", .create "s4" ⟨none, none, none, none⟩,
        .join "s2" "room_c"]).leave_room "h").1.rooms "room_4").map Room.host_id =
      some ((runOps [.register "s1" "h" "H" "", .register "s2" "u" "U" "",
        .register "s3" "v" "V" "", .register "s4" "w" "W" "",
        .create "s1" ⟨none, none, none, none⟩, .join "s2" "room_4",
        .join "s3" "room_4", .create "s4" ⟨none, none, none, none⟩,
        .join "s2" "room_c"]).getU 1).id ∧
    (lookupA ((runOps [.register "s1" "h" "H" "", .register "s2" "u" "U" "",
        .register "s3" "v" "V" "", .register "s4" "w" "W" "",
        .create "s1" ⟨none, none, none, none⟩, .join "s2" "room_4",
        .join "s3" "room_4", .create "s4" ⟨none, none, none, none⟩,
        .join "s2" "room_c"]).leave_room "h").1.rooms "room_4").map Room.participants =
      some [1, 2] ∧
    (((runOps [.register "s1" "h" "H" "", .register "s2" "u" "U" "",
        .register "s3" "v" "V" "", .register "s4" "w" "W" "",
        .create "s1" ⟨none, none, none, none⟩, .join "s2" "room_4",
        .join "s3" "room_4", .create "s4" ⟨none, none, none, none⟩,
        .join "s2" "room_c"]).leave_room "h").1.getU 1).role = "host" :=
  (c3_amended_host_invariant [.register "s1" "h" "H" "", .register "s2" "u" "U" "",
      .register "s3" "v" "V" "", .register "s4" "w" "W" "",
      .create "s1" ⟨none, none, none, none⟩, .join "s2" "room_4",
      .join "s3" "room_4", .create "s4" ⟨none, none, none, none⟩,
      .join "s2" "room_c"]).2 "h" "room_4"
    ⟨"room_4", "Room room_4", "", "h", [0, 1, 2], 5, 10, defaultSettings, false⟩ 1 [2]
    (by decide) (by decide) (by decide) (by decide)

/-- Witness for the amended C4: a concrete `add_message` append on a
one-message log is returned truncated (that is, unchanged). -/
theorem c4_amended_truncation_witness :
    lookupA ((runOps [.register "s1" "h" "H" "", .register "s2" "u" "U" "",
        .create "s1" ⟨none, none, none, none⟩,
        .join "s2" "room_2"]).add_message "room_2" "u" "hi").1.room_messages "room_2" =
      some (truncate500 ([⟨5, "room_2", "system", "시스템", "U님이 참여했습니다.", 6, "system"⟩] ++
        [⟨(runOps [.register "s1" "h" "H" "", .register "s2" "u" "U" "",
            .create "s1" ⟨none, none, none, none⟩, .join "s2" "room_2"]).tick, "room_2", "u",
          ((runOps [.register "s1" "h" "H" "", .register "s2" "u" "U" "",
            .create "s1" ⟨none, none, none, none⟩, .join "s2" "room_2"]).getU 1).name, "hi",
          (runOps [.register "s1" "h" "H" "", .register "s2" "u" "U" "",
            .create "s1" ⟨none, none, none, none⟩, .join "s2" "room_2"]).tick + 1, "text"⟩])) ∧
    (truncate500 ([⟨5, "room_2", "system", "시스템", "U님이 참여했습니다.", 6, "system"⟩] ++
        [⟨(runOps [.register "s1" "h" "H" "", .register "s2" "u" "U" "",
            .create "s1" ⟨none, none, none, none⟩, .join "s2" "room_2"]).tick, "room_2", "u",
          ((runOps [.register "s1" "h" "H" "", .register "s2" "u" "U" "",
            .create "s1" ⟨none, none, none, none⟩, .join "s2" "room_2"]).getU 1).name, "hi",
          (runOps [.register "s1" "h" "H" "", .register "s2" "u" "U" "",
            .create "s1" ⟨none, none, none, none⟩, .join "s2" "room_2"]).tick + 1,
          "text"⟩])).length =
      min ([⟨5, "room_2", "system", "시스템", "U님이 참여했습니다.", 6, "system"⟩] :
        List ChatMessage).length.succ 500 ∧
    (truncate500 ([⟨5, "room_2", "system", "시스템", "U님이 참여했습니다.", 6, "system"⟩] ++
        [⟨(runOps [.register "s1" "h" "H" "", .register "s2" "u" "U" "",
            .create "s1" ⟨none, none, none, none⟩, .join "s2" "room_2"]).tick, "room_2", "u",
          ((runOps [.register "s1" "h" "H" "", .register "s2" "u" "U" "",
            .create "s1" ⟨none, none, none, none⟩, .join "s2" "room_2"]).getU 1).name, "hi",
          (runOps [.register "s1" "h" "H" "", .register "s2" "u" "U" "",
            .create "s1" ⟨none, none, none, none⟩, .join "s2" "room_2"]).tick + 1,
          "text"⟩])) <:+
      ([⟨5, "room_2", "system", "시스템", "U님이 참여했습니다.", 6, "system"⟩] ++
        [⟨(runOps [.register "s1" "h" "H" "", .register "s2" "u" "U" "",
            .create "s1" ⟨none, none, none, none⟩, .join "s2" "room_2"]).tick, "room_2", "u",
          ((runOps [.register "s1" "h" "H" "", .register "s2" "u" "U" "",
            .create "s1" ⟨none, none, none, none⟩, .join "s2" "room_2"]).getU 1).name, "hi",
          (runOps [.register "s1" "h" "H" "", .register "s2" "u" "U" "",
            .create "s1" ⟨none, none, none, none⟩, .join "s2" "room_2"]).tick + 1, "text"⟩]) :=
  c4_amended_truncation (runOps [.register "s1" "h" "H" "", .register "s2" "u" "U" "",
      .create "s1" ⟨none, none, none, none⟩, .join "s2" "room_2"]) "room_2" "u" "hi"
    ("s2", 1) [⟨5, "room_2", "system", "시스템", "U님이 참여했습니다.", 6, "system"⟩]
    (by decide) (by decide) (by decide) (by decide)

/-- Witness for C6: the non-host member of a concrete two-member room
leaves; the room survives with one member and the departure notice. -/
theorem c6_leave_room_spec_witness :
    ((runOps [.register "s1" "h" "H" "", .register "s2" "u" "U" "",
        .create "s1" ⟨none, none, none, none⟩, .join "s2" "room_2"]).leave_room "u").2 =
      .ok (some "room_2") ∧
    (lookupA ((runOps [.register "s1" "h" "H" "", .register "s2" "u" "U" "",
        .create "s1" ⟨none, none, none, none⟩,
        .join "s2" "room_2"]).leave_room "u").1.rooms "room_2").map Room.participants =
      some (((⟨"room_2", "Room room_2", "", "h", [0, 1], 3, 10, defaultSettings,
        false⟩ : Room)).participants.filter (fun r =>
          !(((runOps [.register "s1" "h" "H" "", .register "s2" "u" "U" "",
            .create "s1" ⟨none, none, none, none⟩,
            .join "s2" "room_2"]).getU r).id == "u"))) ∧
    lookupA ((runOps [.register "s1" "h" "H" "", .register "s2" "u" "U" "",
        .create "s1" ⟨none, none, none, none⟩,
        .join "s2" "room_2"]).leave_room "u").1.room_messages "room_2" =
      some ([⟨5, "room_2", "system", "시스템", "U님이 참여했습니다.", 6, "system"⟩] ++
        [⟨(runOps [.register "s1" "h" "H" "", .register "s2" "u" "U" "",
            .create "s1" ⟨none, none, none, none⟩, .join "s2" "room_2"]).tick, "room_2",
          "system", "시스템",
          userNameScan (runOps [.register "s1" "h" "H" "", .register "s2" "u" "U" "",
            .create "s1" ⟨none, none, none, none⟩, .join "s2" "room_2"]) "u" ++
            "님이 나가셨습니다.",
          (runOps [.register "s1" "h" "H" "", .register "s2" "u" "U" "",
            .create "s1" ⟨none, none, none, none⟩, .join "s2" "room_2"]).tick + 1,
          "system"⟩]) :=
  ((c6_leave_room_spec (runOps [.register "s1" "h" "H" "", .register "s2" "u" "U" "",
      .create "s1" ⟨none, none, none, none⟩, .join "s2" "room_2"]) "u").2.2 "room_2"
    ⟨"room_2", "Room room_2", "", "h", [0, 1], 3, 10, defaultSettings, false⟩
    [⟨5, "room_2", "system", "시스템", "U님이 참여했습니다.", 6, "system"⟩]
    (by decide) (by decide) (by decide) (by decide) (by decide) (by decide)).2 (by decide)

/-- Witness for C7: adding a message from the registered second user to
the concrete room returns the new chat message. -/
theorem c7_add_message_spec_witness :
    ((runOps [.register "s1" "h" "H" "", .register "s2" "u" "U" "",
        .create "s1" ⟨none, none, none, none⟩,
        .join "s2" "room_2"]).add_message "room_2" "u" "hello").2 =
      .ok (some ⟨(runOps [.register "s1" "h" "H" "", .register "s2" "u" "U" "",
        .create "s1" ⟨none, none, none, none⟩, .join "s2" "room_2"]).tick, "room_2", "u",
        ((runOps [.register "s1" "h" "H" "", .register "s2" "u" "U" "",
          .create "s1" ⟨none, none, none, none⟩, .join "s2" "room_2"]).getU 1).name,
        "hello",
        (runOps [.register "s1" "h" "H" "", .register "s2" "u" "U" "",
          .create "s1" ⟨none, none, none, none⟩, .join "s2" "room_2"]).tick + 1,
        "text"⟩) := by
  have h := (c7_add_message_spec (runOps [.register "s1" "h" "H" "",
      .register "s2" "u" "U" "", .create "s1" ⟨none, none, none, none⟩,
      .join "s2" "room_2"]) "room_2" "u" "hello" (by decide) (by decide) (by decide)).2
    ("s2", 1) [⟨5, "room_2", "system", "시스템", "U님이 참여했습니다.", 6, "system"⟩]
    (by decide) (by decide) (by decide)
  rw [h]

/-- Witness for C8: a concrete registered sender; a missing target drops
the offer, a live target receives exactly one relayed offer. -/
theorem c8_webrtc_best_effort_witness :
    webrtcOfferH (runOps [.register "s1" "h" "H" "", .register "s2" "u" "U" "",
        .create "s1" ⟨none, none, none, none⟩, .join "s2" "room_2"]) "s1" "zzz" "sdp" =
      (runOps [.register "s1" "h" "H" "", .register "s2" "u" "U" "",
        .create "s1" ⟨none, none, none, none⟩, .join "s2" "room_2"], []) ∧
    webrtcOfferH (runOps [.register "s1" "h" "H" "", .register "s2" "u" "U" "",
        .create "s1" ⟨none, none, none, none⟩, .join "s2" "room_2"]) "s1" "u" "sdp" =
      (runOps [.register "s1" "h" "H" "", .register "s2" "u" "U" "",
        .create "s1" ⟨none, none, none, none⟩, .join "s2" "room_2"],
       [⟨"webrtc_offer", "s2", none,
         .signal ((runOps [.register "s1" "h" "H" "", .register "s2" "u" "U" "",
           .create "s1" ⟨none, none, none, none⟩, .join "s2" "room_2"]).getU 0).id
           "sdp"⟩]) := by
  have h1 := (c8_webrtc_best_effort (runOps [.register "s1" "h" "H" "",
      .register "s2" "u" "U" "", .create "s1" ⟨none, none, none, none⟩,
      .join "s2" "room_2"]) "s1" "zzz" "sdp" 0 (by decide)).1 (by decide)
  have h2 := (c8_webrtc_best_effort (runOps [.register "s1" "h" "H" "",
      .register "s2" "u" "U" "", .create "s1" ⟨none, none, none, none⟩,
      .join "s2" "room_2"]) "s1" "u" "sdp" 0 (by decide)).2 ("s2", 1) (by decide)
  exact ⟨h1.1, h2.1⟩

/-- Witness for C9: disconnecting the same concrete connection twice is a
no-op the second time. -/
theorem c9_disconnect_idempotent_witness :
    (lookupA (runOps [.register "s1" "h" "H" "", .register "s2" "u" "U" "",
        .create "s1" ⟨none, none, none, none⟩, .join "s2" "room_2"]).users "s2" = none →
      disconnectH (runOps [.register "s1" "h" "H" "", .register "s2" "u" "U" "",
        .create "s1" ⟨none, none, none, none⟩, .join "s2" "room_2"]) "s2" =
        (runOps [.register "s1" "h" "H" "", .register "s2" "u" "U" "",
          .create "s1" ⟨none, none, none, none⟩, .join "s2" "room_2"], [])) ∧
    disconnectH (disconnectH (runOps [.register "s1" "h" "H" "", .register "s2" "u" "U" "",
        .create "s1" ⟨none, none, none, none⟩, .join "s2" "room_2"]) "s2").1 "s2" =
      ((disconnectH (runOps [.register "s1" "h" "H" "", .register "s2" "u" "U" "",
        .create "s1" ⟨none, none, none, none⟩, .join "s2" "room_2"]) "s2").1, []) :=
  c9_disconnect_idempotent (runOps [.register "s1" "h" "H" "", .register "s2" "u" "U" "",
      .create "s1" ⟨none, none, none, none⟩, .join "s2" "room_2"]) "s2"
    (by decide) (by decide)

/-- Witness for the amended C5: the `user_rooms` soundness property at a
concrete reachable state and entry. -/
theorem c5_amended_witness :
    ∃ room, lookupA (runOps [.register "s1" "h" "H" "", .register "s2" "u" "U" "",
        .create "s1" ⟨none, none, none, none⟩, .join "s2" "room_2"]).rooms "room_2" =
      some room ∧
      "u" ∈ room.participants.map (fun r =>
        ((runOps [.register "s1" "h" "H" "", .register "s2" "u" "U" "",
          .create "s1" ⟨none, none, none, none⟩, .join "s2" "room_2"]).getU r).id) :=
  c5_amended_user_rooms_sound [.register "s1" "h" "H" "", .register "s2" "u" "U" "",
      .create "s1" ⟨none, none, none, none⟩, .join "s2" "room_2"]
    ("u", "room_2") (by decide)

/-- Witness for C10: the head-is-host property at a concrete reachable
room, including its room-listing row. -/
theorem c10_head_is_host_witness :
    (⟨"room_2", "Room room_2", "", "h", [0, 1], 3, 10, defaultSettings,
        false⟩ : Room).participants ≠ [] ∧
    ((runOps [.register "s1" "h" "H" "", .register "s2" "u" "U" "",
        .create "s1" ⟨none, none, none, none⟩, .join "s2" "room_2"]).getU
      ((⟨"room_2", "Room room_2", "", "h", [0, 1], 3, 10, defaultSettings,
        false⟩ : Room).participants.headD 0)).id =
      (⟨"room_2", "Room room_2", "", "h", [0, 1], 3, 10, defaultSettings,
        false⟩ : Room).host_id ∧
    ((runOps [.register "s1" "h" "H" "", .register "s2" "u" "U" "",
        .create "s1" ⟨none, none, none, none⟩, .join "s2" "room_2"]).getU
      ((⟨"room_2", "Room room_2", "", "h", [0, 1], 3, 10, defaultSettings,
        false⟩ : Room).participants.headD 0)).role = "host" ∧
    (⟨"room_2", "Room room_2", "", [0, 1].length, 10,
      ((runOps [.register "s1" "h" "H" "", .register "s2" "u" "U" "",
        .create "s1" ⟨none, none, none, none⟩, .join "s2" "room_2"]).getU
        ((⟨"room_2", "Room room_2", "", "h", [0, 1], 3, 10, defaultSettings,
          false⟩ : Room).participants.headD 0)).name,
      3, defaultSettings⟩ : RoomListing) ∈
      getRooms (runOps [.register "s1" "h" "H" "", .register "s2" "u" "U" "",
        .create "s1" ⟨none, none, none, none⟩, .join "s2" "room_2"]) :=
  c10_head_is_host [.register "s1" "h" "H" "", .register "s2" "u" "U" "",
      .create "s1" ⟨none, none, none, none⟩, .join "s2" "room_2"]
    ("room_2", ⟨"room_2", "Room room_2", "", "h", [0, 1], 3, 10, defaultSettings, false⟩)
    (by decide)

end Collab
